import Mathlib

/-!
Verification development for the differentiable geometry interpreter
(`optimizer.py`): a shallow embedding of the computational-geometry kernel,
the predicate evaluator, root selection and the instruction interpreter,
over the real numbers.

The numeric backend of the source is abstract (supplied by an excluded
autodiff library); following the interface contract, its scalar type is
modelled as `ℝ`, `const` as the identity, `sqrt` as `Real.sqrt`, `acos` as
`Real.arccos`, and the differentiable `cond`/select primitive as an
if-then-else.  Python's `x ** (1 / 2)` is modelled as the real power
`x ^ ((1 : ℝ) / 2)`.
-/

namespace GMB

noncomputable section

/-- Modelled from the spec: a Point is an ordered pair of backend scalars
supporting addition, subtraction, scalar multiplication and component
access (the concrete Point class lives in the excluded backend). -/
@[ext] structure Pt where
  x : ℝ
  y : ℝ

instance : Add Pt := ⟨fun A B => ⟨A.x + B.x, A.y + B.y⟩⟩

instance : Sub Pt := ⟨fun A B => ⟨A.x - B.x, A.y - B.y⟩⟩

/-- Point scalar multiplication (`Point.smul` of the backend). -/
def Pt.smul (A : Pt) (k : ℝ) : Pt := ⟨A.x * k, A.y * k⟩

/-- Modelled from the spec: the backend's differentiable
`select(condition, then, else)` primitive; semantically an if-then-else. -/
def cond {α : Sort _} (c : Prop) (t f : α) : α :=
  haveI := Classical.propDecidable c
  if c then t else f

/-- Backend comparison `lt`. -/
def lt (a b : ℝ) : Prop := a < b

/-- Backend comparison `lte`. -/
def lte (a b : ℝ) : Prop := a ≤ b

/-- Backend comparison `gt`. -/
def gt (a b : ℝ) : Prop := b < a

/-- Backend `logical_or`. -/
def logical_or (p q : Prop) : Prop := p ∨ q

/-- Backend `sqrt` (`self.sqrt`). -/
def sqrt (x : ℝ) : ℝ := Real.sqrt x

/-- Backend `const`. -/
def const (x : ℝ) : ℝ := x

/-- Backend `acos`. -/
def acos (x : ℝ) : ℝ := Real.arccos x

/-- Backend `sigmoid`, per the standard logistic function of the
interface contract. -/
def sigmoid (x : ℝ) : ℝ := 1 / (1 + Real.exp (-x))

/-- Backend `tanh`. -/
def tanh (x : ℝ) : ℝ := Real.tanh x

/-! ## Computational geometry kernel (source lines 616–713) -/

/-- `midp`: `(A + B).smul(0.5)`. -/
def midp (A B : Pt) : Pt := (A + B).smul 0.5

/-- `midp_from`: `A + (M - A).smul(2)`. -/
def midp_from (M A : Pt) : Pt := A + (M - A).smul 2

/-- `sqdist`: `(A.x - B.x)**2 + (A.y - B.y)**2`. -/
def sqdist (A B : Pt) : ℝ := (A.x - B.x) ^ 2 + (A.y - B.y) ^ 2

/-- `dist`: `sqdist(A, B) ** (1 / 2)`. -/
def dist (A B : Pt) : ℝ := sqdist A B ^ ((1 : ℝ) / 2)

/-- `inner_product`: `a1*b1 + a2*b2` after destructuring both points. -/
def inner_product (A B : Pt) : ℝ := A.x * B.x + A.y * B.y

/-- `scalar_product`. -/
def scalar_product (O A B : Pt) : ℝ :=
  (A.x - O.x) * (B.x - O.x) + (A.y - O.y) * (B.y - O.y)

/-- `matrix_mul`: a matrix is a pair of row points. -/
def matrix_mul (mat : Pt × Pt) (pt : Pt) : Pt :=
  ⟨inner_product mat.1 pt, inner_product mat.2 pt⟩

/-- `rotation_matrix`. -/
def rotation_matrix (θ : ℝ) : Pt × Pt :=
  (⟨Real.cos θ, -Real.sin θ⟩, ⟨Real.sin θ, Real.cos θ⟩)

/-- `rotate_counterclockwise`. -/
def rotate_counterclockwise (θ : ℝ) (pt : Pt) : Pt :=
  matrix_mul (rotation_matrix θ) pt

/-- `rotate_clockwise_90`. -/
def rotate_clockwise_90 (pt : Pt) : Pt :=
  matrix_mul (⟨const 0, const 1⟩, ⟨const (-1), const 0⟩) pt

/-- `rotate_counterclockwise_90`. -/
def rotate_counterclockwise_90 (pt : Pt) : Pt :=
  matrix_mul (⟨const 0, const (-1)⟩, ⟨const 1, const 0⟩) pt

/-- `side_lengths`: `(dist(B, C), dist(C, A), dist(A, B))`. -/
def side_lengths (A B C : Pt) : ℝ × ℝ × ℝ := (dist B C, dist C A, dist A B)

/-- `angle`: law-of-cosines angle at `B`. -/
def angle (A B C : Pt) : ℝ :=
  let s := side_lengths A B C
  acos ((s.1 ^ 2 + s.2.2 ^ 2 - s.2.1 ^ 2) / (2 * s.1 * s.2.2))

/-- `conway_vals`: the Conway symmetric values `Sa, Sb, Sc`. -/
def conway_vals (A B C : Pt) : ℝ × ℝ × ℝ :=
  let s := side_lengths A B C
  ((s.2.1 ^ 2 + s.2.2 ^ 2 - s.1 ^ 2) / 2,
   (s.2.2 ^ 2 + s.1 ^ 2 - s.2.1 ^ 2) / 2,
   (s.1 ^ 2 + s.2.1 ^ 2 - s.2.2 ^ 2) / 2)

/-- `trilinear`: the trilinear-coordinate point formula. -/
def trilinear (A B C : Pt) (x y z : ℝ) : Pt :=
  let s := side_lengths A B C
  let a := s.1; let b := s.2.1; let c := s.2.2
  let denom := a * x + b * y + c * z
  ⟨(a * x * A.x + b * y * B.x + c * z * C.x) / denom,
   (a * x * A.y + b * y * B.y + c * z * C.y) / denom⟩

/-- `barycentric`: reduces to `trilinear` by dividing by the side lengths. -/
def barycentric (A B C : Pt) (x y z : ℝ) : Pt :=
  let s := side_lengths A B C
  trilinear A B C (x / s.1) (y / s.2.1) (z / s.2.2)

/-- `circumcenter`: barycentric `(a² Sa : b² Sb : c² Sc)`. -/
def circumcenter (A B C : Pt) : Pt :=
  let s := side_lengths A B C
  let w := conway_vals A B C
  barycentric A B C (s.1 ^ 2 * w.1) (s.2.1 ^ 2 * w.2.1) (s.2.2 ^ 2 * w.2.2)

/-- `orthocenter`: barycentric `(Sb Sc : Sc Sa : Sa Sb)`. -/
def orthocenter (A B C : Pt) : Pt :=
  let w := conway_vals A B C
  barycentric A B C (w.2.1 * w.2.2) (w.2.2 * w.1) (w.1 * w.2.1)

/-- `centroid`. -/
def centroid (A B C : Pt) : Pt := barycentric A B C 1 1 1

/-- `incenter`. -/
def incenter (A B C : Pt) : Pt := trilinear A B C 1 1 1

/-- `perp_phi`. -/
def perp_phi (A B C D : Pt) : ℝ :=
  (A.x - B.x) * (C.x - D.x) + (A.y - B.y) * (C.y - D.y)

/-- `para_phi`. -/
def para_phi (A B C D : Pt) : ℝ :=
  (A.x - B.x) * (C.y - D.y) - (A.y - B.y) * (C.x - D.x)

/-- `cong_diff`. -/
def cong_diff (A B C D : Pt) : ℝ := sqdist A B - sqdist C D

/-- `coll_phi`: the collinearity determinant. -/
def coll_phi (A B C : Pt) : ℝ :=
  A.x * (B.y - C.y) + B.x * (C.y - A.y) + C.x * (A.y - B.y)

/-! ## Lines, circles and intersections (source lines 10–12, 744–811) -/

/-- `SlopeInterceptForm`: slope, intercept, and the two defining points. -/
structure SlopeInterceptForm where
  m : ℝ
  b : ℝ
  p1 : Pt
  p2 : Pt

/-- `CircleNF`: center and radius. -/
structure CircleNF where
  center : Pt
  radius : ℝ

/-- `inter_ll`: line-line intersection of two slope-intercept forms. -/
def inter_ll (sif1 sif2 : SlopeInterceptForm) : Pt :=
  let px := (sif2.b - sif1.b) / (sif1.m - sif2.m)
  ⟨px, sif1.m * px + sif1.b⟩

/-- `pp2sif`: two points on a line to slope-intercept form. -/
def pp2sif (p1 p2 : Pt) : SlopeInterceptForm :=
  let m := (p2.y - p1.y) / (p2.x - p1.x)
  ⟨m, p1.y - m * p1.x, p1, p2⟩

/-- `shift` applied to one point of the list. -/
def shiftP (O P : Pt) : Pt := ⟨P.x - O.x, P.y - O.y⟩

/-- `unshift` applied to one point of the list. -/
def unshiftP (O P : Pt) : Pt := ⟨P.x + O.x, P.y + O.y⟩

/-- `sgnstar`, the helper nested in `inter_pp_c.on_nneg`. -/
def sgnstar (x : ℝ) : ℝ := cond (lt x (const 0)) (const (-1)) (const 1)

/-- The radicand `r**2 * dr**2 - D**2` computed by `inter_pp_c` after
shifting the circle's center to the origin (factored out so statements can
refer to it). -/
def line_circle_radicand (P1 P2 : Pt) (cnf : CircleNF) : ℝ :=
  let r := cnf.radius
  let Q1 := shiftP cnf.center P1
  let Q2 := shiftP cnf.center P2
  let dx := Q1.x - Q2.x
  let dy := Q1.y - Q2.y
  let dr := sqrt (dx ^ 2 + dy ^ 2)
  let D := Q2.x * Q1.y - Q1.x * Q2.y
  r ^ 2 * dr ^ 2 - D ^ 2

/-- `inter_pp_c`: line-circle intersection following the Wolfram formula,
with the smooth `on_neg` fallback selected by the differentiable `cond`
when the radicand is negative. -/
def inter_pp_c (P1 P2 : Pt) (cnf : CircleNF) : Pt × Pt :=
  let O := cnf.center
  let r := cnf.radius
  let Q1 := shiftP O P1
  let Q2 := shiftP O P2
  let dx := Q1.x - Q2.x
  let dy := Q1.y - Q2.y
  let dr := sqrt (dx ^ 2 + dy ^ 2)
  let D := Q2.x * Q1.y - Q1.x * Q2.y
  let radicand := line_circle_radicand P1 P2 cnf
  let on_nneg : Pt × Pt :=
    (unshiftP O ⟨(D * dy + sgnstar dy * dx * sqrt radicand) / dr ^ 2,
                 (-D * dx + |dy| * sqrt radicand) / dr ^ 2⟩,
     unshiftP O ⟨(D * dy - sgnstar dy * dx * sqrt radicand) / dr ^ 2,
                 (-D * dx - |dy| * sqrt radicand) / dr ^ 2⟩)
  let on_neg : Pt × Pt :=
    let Operp := rotate_counterclockwise_90 (Q1 - Q2) + O
    let F := inter_ll (pp2sif Q1 Q2) (pp2sif O Operp)
    let X := O + (F - O).smul (r / dist O F)
    let Q := midp F X
    (unshiftP O Q, unshiftP O Q)
  cond (lt radicand (const 0)) on_neg on_nneg

/-- `pt_eq`: epsilon-threshold point equality. -/
def pt_eq (p1 p2 : Pt) : Prop := lt (dist p1 p2) 1e-6

/-- `pt_neq`: epsilon-threshold point distinctness. -/
def pt_neq (p1 p2 : Pt) : Prop := gt (dist p1 p2) 1e-6

/-- `det3`. -/
def det3 (A O B : Pt) : ℝ :=
  (A.x - O.x) * (B.y - O.y) - (A.y - O.y) * (B.x - O.x)

/-- `side_score_prod`. -/
def side_score_prod (a b x y : Pt) : ℝ := det3 a x y * det3 b x y

/-- `opp_sides`. -/
def opp_sides (a b x y : Pt) : Prop := lt (side_score_prod a b x y) 0

/-- `same_side`. -/
def same_side (a b x y : Pt) : Prop := gt (side_score_prod a b x y) 0

/-- The non-degeneracy penalty value computed (and then registered) by
`make_lc_intersect`. -/
def lc_penalty (l : SlopeInterceptForm) (c : CircleNF) : ℝ :=
  let A := l.p1
  let B := l.p2
  let O := c.center
  let r := c.radius
  let Operp := rotate_counterclockwise_90 (A - B) + O
  let F := inter_ll l (pp2sif O Operp)
  let d := dist O F
  let f_val := cond (lt r d) d (const 0)
  cond (logical_or (lt (dist O Operp) 1e-6) (lt (dist A B) 1e-6)) (const 0) f_val

/-- `eqangle6_diff`. -/
def eqangle6_diff (A B C P Q R : Pt) : ℝ :=
  0.1 * (det3 A B C * scalar_product P Q R - det3 P Q R * scalar_product A B C)

/-- Error outcomes of the embedded evaluator, mirroring the Python
exceptions: NameError for the unqualified `dist`/`const`/`args`
identifiers (modelled from the spec, which treats them as unbound:
the module namespace provides no such names), KeyError for registry
lookup misses, ValueError for failed unpacking, and the explicit
RuntimeError/NotImplementedError raises. -/
inductive Err where
  | unboundDist
  | unboundConst
  | unboundArgs
  | unboundLocal
  | keyError (name : String)
  | valueError
  | indexError
  | runtimeError (msg : String)
  | nyi (msg : String)
deriving DecidableEq

/-- The unqualified `dist(...)` name: always a NameError. -/
def unbound_dist (_A _B : Pt) : Except Err ℝ := .error .unboundDist

/-- The unqualified `const(...)` name: always a NameError. -/
def unbound_const (_x : ℝ) : Except Err ℝ := .error .unboundConst

/-- The unqualified `args` name in `sample`: always a NameError
(the method bound `s_args` instead). -/
def unbound_args : Except Err (List String) := .error .unboundArgs

/-- `eqratio_diff`: fails on the unqualified `dist(A, B)` before any
arithmetic (Python evaluates arguments left to right). -/
def eqratio_diff (A B C D P Q R S : Pt) : Except Err ℝ := do
  let d ← unbound_dist A B
  pure (sqrt (d * dist R S) - sqrt (dist P Q * dist C D))

/-- `harmonic_l_conj`: the auxiliary point `L` is built with the
unqualified `const(math.pi / 3)`, so the computation fails before
producing a point. -/
def harmonic_l_conj (X A B : Pt) : Except Err Pt := do
  let c ← unbound_const (Real.pi / 3)
  let L := A + (rotate_counterclockwise c (X - A)).smul 0.5
  let M := midp A L
  let N := inter_ll (pp2sif B L) (pp2sif X M)
  let K := inter_ll (pp2sif A N) (pp2sif B M)
  let Y := inter_ll (pp2sif L K) (pp2sif A X)
  pure Y

/-! ## Geometry modelled from the spec, for statements only -/

/-- Modelled from the spec: the line's nearest point to `O` ("the line's
closest approach"), i.e. the orthogonal projection of `O` onto the line
through `A` and `B`. -/
def foot_on_line (O A B : Pt) : Pt :=
  A + (B - A).smul (inner_product (O - A) (B - A) / sqdist A B)

/-- Modelled from the spec: `distance(center, line)`. -/
def dist_to_line (O A B : Pt) : ℝ := dist O (foot_on_line O A B)

/-- Modelled from the spec: the projection of a point `F` onto the circle
`(O, r)` (radially, to distance `r` from the center). -/
def proj_to_circle (O : Pt) (r : ℝ) (F : Pt) : Pt :=
  O + (F - O).smul (r / dist O F)

/-- The point actually produced by the `on_neg` fallback for a circle
centered at the origin: the midpoint of the line's nearest point and its
radial projection onto the circle. -/
def midp_foot_proj (O : Pt) (r : ℝ) (A B : Pt) : Pt :=
  midp (foot_on_line O A B) (proj_to_circle O r (foot_on_line O A B))

/-! ## Interpreter data model (source lines 14–50 and the spec's data
model for the abstract registration primitives) -/

/-- `Constraint`: predicate name, ordered point names, negate flag. -/
structure Constraint where
  pred : String
  points : List String
  negate : Bool

/-- Line descriptors dispatched by `line2twoPts` (string-tagged in the
source; a tagged union here, as the spec prescribes). -/
inductive Line where
  | connecting (ps : List String)
  | paraAt (ps : List String)
  | perpAt (ps : List String)
  | mediator (ps : List String)
  | ibisector (ps : List String)
  | ebisector (ps : List String)
  | eqoangle (ps : List String)
  | other (pred : String) (ps : List String)

/-- Circle descriptors dispatched by `circ2nf`. -/
inductive Circle where
  | c3 (ps : List String)
  | coa (ps : List String)
  | cong (ps : List String)
  | diam (ps : List String)
  | other (pred : String) (ps : List String)

/-- Root-selection policies dispatched by `process_rs`. -/
inductive RootSelect where
  | neq (n : String)
  | closerTo (n : String)
  | furtherFrom (n : String)
  | oppSides (n : String) (l : Line)
  | sameSide (n : String) (l : Line)
  | arbitrary
  | other (pred : String)

/-- Computation methods dispatched by `compute` (the modelled subset). -/
inductive Computation where
  | midp (ps : List String)
  | circumcenter (ps : List String)
  | harmonicLConj (ps : List String)
  | interLC (l : Line) (c : Circle) (rs : RootSelect)
  | other (method : String)

/-- The six instruction kinds (the modelled subset: Sample, Compute,
Assert, AssertNDG, Confirm; Parameterize is outside the claims). -/
inductive Instr where
  | sample (points : List String) (sampler : String) (sargs : List String)
  | compute (point : String) (comp : Computation)
  | assert (c : Constraint)
  | assertNDG (c : Constraint)
  | confirm (c : Constraint)

/-- The interpreter state: the name registry, the three residual
registries and the figure accumulators, all insertion-ordered
(`name2pt`, `losses`, `ndgs`, `goals`, `segments`, `circles` of the
source's `__init__`). -/
structure St where
  name2pt : List (String × Pt)
  losses : List (String × ℝ × ℝ)
  ndgs : List (String × ℝ × ℝ)
  goals : List (String × ℝ)
  segments : List (Pt × Pt)
  circles : List (Pt × ℝ)

/-- The empty initial state. -/
def St.empty : St := ⟨[], [], [], [], [], []⟩

/-- Modelled from the spec: `register_pt` (abstract in the source) inserts
a fresh name into the insertion-ordered registry; keys are unique, a
re-registration being a caller error. -/
def register_pt (p : String) (P : Pt) (st : St) : St :=
  { st with name2pt := st.name2pt ++ [(p, P)] }

/-- Modelled from the spec: `register_loss` records `(label, value,
weight)` in the loss registry. -/
def register_loss (key : String) (v w : ℝ) (st : St) : St :=
  { st with losses := st.losses ++ [(key, v, w)] }

/-- Modelled from the spec: `register_ndg`. -/
def register_ndg (key : String) (v w : ℝ) (st : St) : St :=
  { st with ndgs := st.ndgs ++ [(key, v, w)] }

/-- Modelled from the spec: `register_goal`. -/
def register_goal (key : String) (v : ℝ) (st : St) : St :=
  { st with goals := st.goals ++ [(key, v)] }

/-- Modelled from the spec: `mkvar` draws the current value of a named
free variable from the optimizer-owned environment (bounds and shapes
live in the excluded backend). -/
def mkvar (env : String → ℝ) (name : String) : ℝ := env name

/-- `self.name2pt[p]`: KeyError when the name is missing. -/
def lookup_pt (st : St) (p : String) : Except Err Pt :=
  match st.name2pt.find? (fun q => q.1 == p) with
  | some q => .ok q.2
  | none => .error (.keyError p)

/-- `lookup_pts`. -/
def lookup_pts (st : St) (ps : List String) : Except Err (List Pt) :=
  ps.mapM (lookup_pt st)

/-- `itertools.combinations(l, 2)` in lexicographic order. -/
def pairs {α : Type} : List α → List (α × α)
  | [] => []
  | x :: xs => (xs.map (fun y => (x, y))) ++ pairs xs

/-- `itertools.combinations(l, 3)` in lexicographic order. -/
def triples {α : Type} : List α → List (α × α × α)
  | [] => []
  | x :: xs => ((pairs xs).map (fun p => (x, p.1, p.2))) ++ triples xs

/-- The consecutive segments appended by the `coll` branch of
`assertion_vals`. -/
def consec_segments : List Pt → List (Pt × Pt)
  | [] => []
  | [_] => []
  | x :: y :: rest => (x, y) :: consec_segments (y :: rest)

/-- `'_'.join(ps)`. -/
def joinUnd (ps : List String) : String := String.intercalate "_" ps

/-- The indexed registration loop shared by `add`/`addNDG`: a single
residual keeps the base label, several get `_i` suffixes. -/
def register_indexed (reg : String → ℝ → ℝ → St → St) (base : String)
    (w : ℝ) (vals : List ℝ) (st : St) : St :=
  (vals.enum).foldl
    (fun s iv =>
      reg (if vals.length = 1 then base else base ++ "_" ++ toString iv.1) iv.2 w s)
    st

/-- Indexed goal registration (`confirm`). -/
def register_goal_indexed (base : String) (vals : List ℝ) (st : St) : St :=
  (vals.enum).foldl
    (fun s iv =>
      register_goal (if vals.length = 1 then base else base ++ "_" ++ toString iv.1) iv.2 s)
    st

/-! ## Utilities: `line2twoPts`, `line2sif`, `circ2nf` (source 956–1025) -/

/-- `line2twoPts`: two points determining a line descriptor.  The
`eqoangle` branch raises a NameError (its segment bookkeeping references
the unbound names `A`, `P`, `Q`, `R`) after computing `theta` and `X` but
before mutating any state. -/
def line2twoPts (st : St) : Line → Except Err (Pt × Pt)
  | .connecting ps => do
      let pts ← lookup_pts st ps
      match pts with
      | [a, b] => .ok (a, b)
      | _ => .error .valueError
  | .paraAt ps => do
      let pts ← lookup_pts st ps
      match pts with
      | [X, A, B] => .ok (X, X + B - A)
      | _ => .error .valueError
  | .perpAt ps => do
      let pts ← lookup_pts st ps
      match pts with
      | [X, A, B] => .ok (X, X + rotate_counterclockwise_90 (A - B))
      | _ => .error .valueError
  | .mediator ps => do
      let pts ← lookup_pts st ps
      match pts with
      | [A, B] =>
          let M := midp A B
          .ok (M, M + rotate_counterclockwise_90 (A - B))
      | _ => .error .valueError
  | .ibisector ps => do
      let pts ← lookup_pts st ps
      match pts with
      | [A, B, C] =>
          let X := B + (A - B).smul (dist B C / dist B A)
          let M := midp X C
          .ok (B, M)
      | _ => .error .valueError
  | .ebisector ps => do
      let pts ← lookup_pts st ps
      match pts with
      | [A, B, C] =>
          let X := B + (A - B).smul (dist B C / dist B A)
          let M := midp X C
          let Y := B + rotate_counterclockwise_90 (M - B)
          .ok (B, Y)
      | _ => .error .valueError
  | .eqoangle ps => do
      let pts ← lookup_pts st ps
      match pts with
      | [B, C, D, E, F2] =>
          let theta := angle D E F2
          let _X := B + rotate_counterclockwise theta (C - B)
          .error .unboundLocal
      | _ => .error .valueError
  | .other pred _ => .error (.runtimeError ("[line2sif] Unexpected line pred: " ++ pred))

/-- `line2sif`. -/
def line2sif (st : St) (l : Line) : Except Err SlopeInterceptForm := do
  let pq ← line2twoPts st l
  .ok (pp2sif pq.1 pq.2)

/-- `circ2nf`: circle descriptor to center-radius normal form; the `diam`
branch fails on its unqualified `dist(O, B)`. -/
def circ2nf (st : St) : Circle → Except Err CircleNF
  | .c3 ps => do
      let pts ← lookup_pts st ps
      match pts with
      | [A, B, C] =>
          let O := circumcenter A B C
          .ok ⟨O, dist O A⟩
      | _ => .error .valueError
  | .coa ps => do
      let pts ← lookup_pts st ps
      match pts with
      | [O, A] => .ok ⟨O, dist O A⟩
      | _ => .error .valueError
  | .cong ps => do
      let pts ← lookup_pts st ps
      match pts with
      | [O, X, Y] => .ok ⟨O, dist X Y⟩
      | _ => .error .valueError
  | .diam ps => do
      let pts ← lookup_pts st ps
      match pts with
      | [B, C] =>
          let O := midp B C
          let r ← unbound_dist O B
          .ok ⟨O, r⟩
      | _ => .error .valueError
  | .other pred _ => .error (.runtimeError ("[circ2nf] NYI: " ++ pred))

/-- `process_rs`: root selection among the two candidate intersection
points; `arbitrary` returns the second candidate. -/
def process_rs (P1 P2 : Pt) (rs : RootSelect) (st : St) : Except Err Pt :=
  match rs with
  | .neq n => do
      let pts ← lookup_pts st [n]
      match pts with
      | [pt] => .ok (cond (pt_neq P1 pt) P1 P2)
      | _ => .error .valueError
  | .closerTo n => do
      let pts ← lookup_pts st [n]
      match pts with
      | [pt] => .ok (cond (lte (sqdist P1 pt) (sqdist P2 pt)) P1 P2)
      | _ => .error .valueError
  | .furtherFrom n => do
      let pts ← lookup_pts st [n]
      match pts with
      | [pt] => .ok (cond (lt (sqdist P2 pt) (sqdist P1 pt)) P1 P2)
      | _ => .error .valueError
  | .oppSides n l => do
      let pts ← lookup_pts st [n]
      match pts with
      | [pt] => do
          let ab ← line2twoPts st l
          .ok (cond (opp_sides P1 pt ab.1 ab.2) P1 P2)
      | _ => .error .valueError
  | .sameSide n l => do
      let pts ← lookup_pts st [n]
      match pts with
      | [pt] => do
          let ab ← line2twoPts st l
          .ok (cond (same_side P1 pt ab.1 ab.2) P1 P2)
      | _ => .error .valueError
  | .arbitrary => .ok P2
  | .other pred => .error (.nyi ("[process_rs] NYI: " ++ pred))

/-- `make_lc_intersect`: registers the non-degeneracy penalty
`lc_penalty` under the `interLC_` label with weight `1e-1`. -/
def make_lc_intersect (name : String) (l : SlopeInterceptForm) (c : CircleNF)
    (st : St) : St :=
  register_loss ("interLC_" ++ name) (lc_penalty l c) 1e-1 st

/-- `inter_lc`: line-circle intersection, appending the circle and
resolving the two roots through `process_rs`. -/
def inter_lc (l : SlopeInterceptForm) (c : CircleNF) (rs : RootSelect)
    (st : St) : Except Err (Pt × St) :=
  let pr := inter_pp_c l.p1 l.p2 c
  let st1 := { st with circles := st.circles ++ [(c.center, c.radius)] }
  do
    let P ← process_rs pr.1 pr.2 rs st1
    .ok (P, st1)

open Classical in
/-- `assertion_vals`: predicate name and point names to the ordered list
of residuals, with the opportunistic figure-accumulator side effects
threaded through the returned state.  The modelled predicates are `coll`,
`cong`, `distLt`, `distGt`, `eqoangle`, `eqratio`, `midp`, `perp`,
`para`, `circumcenter`, `incenter` and `orthocenter`; the remaining
source predicates are outside the claims' scope and are mapped to the
fatal default. -/
def assertion_vals (st : St) (pred : String) (ps : List String) :
    Except Err (List ℝ × St) :=
  match pred with
  | "coll" => do
      let pts ← lookup_pts st ps
      let diffs := (triples pts).map (fun t => coll_phi t.1 t.2.1 t.2.2)
      .ok (diffs, { st with segments := st.segments ++ consec_segments pts })
  | "cong" => do
      let pts ← lookup_pts st ps
      match pts with
      | [A, B, C, D] =>
          let st1 :=
            if A = C ∨ A = D then
              { st with circles := st.circles ++ [(A, dist A B)] }
            else if B = C ∨ B = D then
              { st with circles := st.circles ++ [(B, dist A B)] }
            else st
          .ok ([cong_diff A B C D], st1)
      | _ => .error .valueError
  | "distLt" => do
      let pts ← lookup_pts st ps
      match pts with
      | [X, Y, A, B] => do
          let d ← unbound_dist A B
          .ok ([max (const 0) (dist X Y - d)], st)
      | _ => .error .valueError
  | "distGt" => do
      let pts ← lookup_pts st ps
      match pts with
      | [X, Y, A, B] => .ok ([max (const 0) (dist A B - dist X Y)], st)
      | _ => .error .valueError
  | "eqoangle" => do
      let pts ← lookup_pts st ps
      match pts with
      | [A, B, C, P, Q, R] => .ok ([angle A B C - angle P Q R], st)
      | _ => .error .valueError
  | "eqratio" => do
      let pts ← lookup_pts st ps
      match pts with
      | [A, B, C, D, P, Q, R, S2] => do
          let v ← eqratio_diff A B C D P Q R S2
          .ok ([v], st)
      | _ => .error .valueError
  | "midp" => do
      let pts ← lookup_pts st ps
      match pts with
      | [M, A, B] => .ok ([dist M (midp A B)], st)
      | _ => .error .valueError
  | "perp" => do
      let pts ← lookup_pts st ps
      match pts with
      | [A, B, C, D] => .ok ([perp_phi A B C D], st)
      | _ => .error .valueError
  | "para" => do
      let pts ← lookup_pts st ps
      match pts with
      | [A, B, C, D] => .ok ([para_phi A B C D], st)
      | _ => .error .valueError
  | "circumcenter" => do
      let pts ← lookup_pts st ps
      match pts with
      | [O, A, B, C] =>
          .ok ([dist O (circumcenter A B C)],
               { st with circles := st.circles ++ [(O, dist O A)] })
      | _ => .error .valueError
  | "incenter" => do
      let pts ← lookup_pts st ps
      match pts with
      | [I, A, B, C] => .ok ([dist I (incenter A B C)], st)
      | _ => .error .valueError
  | "orthocenter" => do
      let pts ← lookup_pts st ps
      match pts with
      | [H, A, B, C] => .ok ([dist H (orthocenter A B C)], st)
      | _ => .error .valueError
  | p => .error (.nyi ("[assertion_vals] NYI: " ++ p))

/-- `add` (Assert): negation is a RuntimeError; otherwise each residual is
registered as a loss with weight `1 / len(vals)`. -/
def add (a : Constraint) (st : St) : Except Err St :=
  if a.negate then .error (.runtimeError "[add] Mishandled negation")
  else do
    let vs ← assertion_vals st a.pred a.points
    let a_str := a.pred ++ "_" ++ joinUnd a.points
    let weight := 1 / (vs.1.length : ℝ)
    .ok (register_indexed register_loss a_str weight vs.1 vs.2)

/-- `addNDG` (AssertNDG). -/
def addNDG (ndg : Constraint) (st : St) : Except Err St := do
  let vs ← assertion_vals st ndg.pred ndg.points
  let a_str := "not_" ++ ndg.pred ++ "_" ++ joinUnd ndg.points
  let weight := 1 / (vs.1.length : ℝ)
  .ok (register_indexed register_ndg a_str weight vs.1 vs.2)

/-- `confirm` (Confirm): goals carry no weight; a negated goal only gets
the `not_` label prefix. -/
def confirm (goal : Constraint) (st : St) : Except Err St := do
  let vs ← assertion_vals st goal.pred goal.points
  let g_str := goal.pred ++ "_" ++ joinUnd goal.points
  let g_str2 := if goal.negate then "not_" ++ g_str else g_str
  .ok (register_goal_indexed g_str2 vs.1 vs.2)

/-! ## Sampling (source lines 173–267) -/

/-- `sample_uniform`. -/
def sample_uniform (env : String → ℝ) (ps : List String) (st : St) :
    Except Err St :=
  match ps with
  | [p] =>
      .ok (register_pt p ⟨mkvar env (p ++ "x"), mkvar env (p ++ "y")⟩ st)
  | _ => .error .valueError

/-- One step of the `sample_polygon` vertex loop (its body for index `i`):
rotate the previous edge by the sampled turning angle and scale it.
`simplify(..., method="trig")` is a backend hook and is modelled from the
spec as the identity. -/
def polygon_extend (angles scales : List ℝ) (s : ℝ) (Ps : List Pt) (i : Nat) :
    List Pt :=
  let A := Ps.getD (Ps.length - 2) ⟨0, 0⟩
  let B := Ps.getD (Ps.length - 1) ⟨0, 0⟩
  let X := B + rotate_counterclockwise (-(angles.getD (i - 1) 0)) (A - B)
  let P := B + (X - B).smul (s * (1 + scales.getD (i - 1) 0) / dist X B)
  Ps ++ [P]

/-- `sample_polygon`: latent turning angles and scales, the iterative
vertex construction, three soft closure losses, the polygon's segments
and the vertex registrations. -/
def sample_polygon (env : String → ℝ) (ps : List String) (st : St) : St :=
  let n := ps.length
  let angle_zs := (List.range n).map
    (fun i => mkvar env ("polygon_angle_zs_" ++ toString i))
  let multiplicand := ((n : ℝ) - 2) / (n : ℝ) * Real.pi + Real.pi / 3
  let angles := angle_zs.map (fun az => multiplicand * tanh (0.2 * az))
  let scale_zs := (List.range n).map
    (fun i => mkvar env ("polygon_scale_zs_" ++ toString i))
  let scales := scale_zs.map (fun sz => 0.5 * tanh (0.2 * sz))
  let P0 : Pt := ⟨const (-2), const 0⟩
  let P1 : Pt := ⟨const 2, const 0⟩
  let s := dist P0 P1
  let Ps := ((List.range (n - 1)).map (fun k => k + 2)).foldl
    (polygon_extend angles scales s) [P0, P1]
  let angle_sum := angles.foldr (fun a acc => a + acc) 0
  let expected := Real.pi * ((n : ℝ) - 2)
  let st1 := register_loss "polygon-angle-sum" (angle_sum - expected) 1e-1 st
  let st2 := register_loss "polygon-first-eq-last"
    (dist (Ps.getD 0 ⟨0, 0⟩) (Ps.getD n ⟨0, 0⟩)) 1e-2 st1
  let st3 := register_loss "polygon-first-angle-eq-sampled"
    (angles.getD 0 0 -
      angle (Ps.getD (Ps.length - 1) ⟨0, 0⟩) (Ps.getD 0 ⟨0, 0⟩) (Ps.getD 1 ⟨0, 0⟩))
    1e-2 st2
  let segs := (List.range n).map
    (fun i => (Ps.getD i ⟨0, 0⟩, Ps.getD ((i + 1) % n) ⟨0, 0⟩))
  let st4 := { st3 with segments := st3.segments ++ segs }
  ((ps.zip (Ps.take n)).foldl (fun s pP => register_pt pP.1 pP.2 s) st4)

/-- `sample_triangle`: base vertices `(-2, 0)` and `(2, 0)`, apex driven
by the variant flags, vertex binding permuted when the named
isosceles/right vertex is not the canonical third vertex. -/
def sample_triangle (env : String → ℝ) (ps : List String)
    (iso right : Option String) (acute equi : Bool) (st : St) :
    Except Err St :=
  if iso.isNone && right.isNone && !acute && !equi then
    .ok (sample_polygon env ps st)
  else
    match ps with
    | [nA, nB, nC] =>
        let B : Pt := ⟨const (-2), const 0⟩
        let C : Pt := ⟨const 2, const 0⟩
        let Ax := if iso.isSome || equi then const 0 else mkvar env "tri_x"
        let Ay :=
          if right.isSome then sqrt (4 - Ax ^ 2)
          else if equi then 2 * sqrt (const 3)
          else
            let AyLo : ℝ := if acute then 1.1 else 0.4
            const AyLo + 3.0 * sigmoid (mkvar env "tri")
        let A : Pt := ⟨Ax, Ay⟩
        let t :=
          if iso = some nB ∨ right = some nB then (B, A, C)
          else if iso = some nC ∨ right = some nC then (C, B, A)
          else (A, B, C)
        let st1 := register_pt nA t.1 st
        let st2 := register_pt nB t.2.1 st1
        let st3 := register_pt nC t.2.2 st2
        .ok { st3 with segments := st3.segments ++
          [(t.1, t.2.1), (t.2.1, t.2.2), (t.2.2, t.1)] }
    | _ => .error .valueError

/-- `sample`: dispatch on the sampler tag.  The `acuteIsoTri`, `isoTri`
and `rightTri` branches evaluate the unbound name `args` (the method
bound `s_args`) and therefore raise a NameError before sampling. -/
def sample (env : String → ℝ) (points : List String) (sampler : String)
    (_sargs : List String) (st : St) : Except Err St :=
  match sampler with
  | "acuteIsoTri" => do
      let a ← unbound_args
      match a with
      | v :: _ => sample_triangle env points (some v) none true false st
      | [] => .error .indexError
  | "acuteTri" => sample_triangle env points none none true false st
  | "equiTri" => sample_triangle env points none none false true st
  | "isoTri" => do
      let a ← unbound_args
      match a with
      | v :: _ => sample_triangle env points (some v) none false false st
      | [] => .error .indexError
  | "polygon" => .ok (sample_polygon env points st)
  | "rightTri" => do
      let a ← unbound_args
      match a with
      | v :: _ => sample_triangle env points none (some v) false false st
      | [] => .error .indexError
  | "triangle" => sample_triangle env points none none false false st
  | "uniform" => sample_uniform env points st
  | t => .error (.nyi ("[sample] NYI: Sampling method " ++ t))

/-! ## Compute (source lines 273–397) -/

/-- `compute_midp`. -/
def compute_midp (m : String) (ps : List String) (st : St) : Except Err St := do
  let pts ← lookup_pts st ps
  match pts with
  | [A, B] =>
      let st1 := register_pt m (midp A B) st
      .ok { st1 with segments := st1.segments ++ [(A, B)] }
  | _ => .error .valueError

/-- `compute_circumcenter`. -/
def compute_circumcenter (o : String) (ps : List String) (st : St) :
    Except Err St := do
  let pts ← lookup_pts st ps
  match pts with
  | [A, B, C] =>
      let O := circumcenter A B C
      let st1 := register_pt o O st
      .ok { st1 with circles := st1.circles ++ [(O, dist O A)] }
  | _ => .error .valueError

/-- `compute_harmonic_l_conj`: fails inside `harmonic_l_conj` before any
state mutation. -/
def compute_harmonic_l_conj (y : String) (ps : List String) (st : St) :
    Except Err St := do
  let pts ← lookup_pts st ps
  match pts with
  | [X, A, B] => do
      let Y ← harmonic_l_conj X A B
      let st1 := register_pt y Y st
      .ok { st1 with segments := st1.segments ++ [(A, B), (X, Y)] }
  | _ => .error .valueError

/-- `compute_inter_lc`. -/
def compute_inter_lc (p : String) (l : Line) (c : Circle) (rs : RootSelect)
    (st : St) : Except Err St := do
  let lsif ← line2sif st l
  let cnf ← circ2nf st c
  let Pst ← inter_lc lsif cnf rs st
  let st2 := make_lc_intersect p lsif cnf Pst.2
  .ok (register_pt p Pst.1 st2)

/-- `compute`: dispatch on the computation method (modelled subset). -/
def compute (p : String) (c : Computation) (st : St) : Except Err St :=
  match c with
  | .midp ps => compute_midp p ps st
  | .circumcenter ps => compute_circumcenter p ps st
  | .harmonicLConj ps => compute_harmonic_l_conj p ps st
  | .interLC l c rs => compute_inter_lc p l c rs st
  | .other m => .error (.nyi ("[compute] NYI: " ++ m))

/-! ## The interpreter (source lines 32–50) -/

/-- `process_instruction`: dispatch on the instruction kind.  A Python
exception leaves the evaluator object as it was at the raise; every
modelled failure occurs before its handler's first state mutation, so an
error carries the unchanged input state. -/
def process_instruction (env : String → ℝ) (i : Instr) (st : St) :
    Except (Err × St) St :=
  let res : Except Err St :=
    match i with
    | .sample ps tag sargs => sample env ps tag sargs st
    | .compute p c => compute p c st
    | .assert c => add c st
    | .assertNDG c => addNDG c st
    | .confirm c => confirm c st
  match res with
  | .ok s => .ok s
  | .error e => .error (e, st)

/-- `preprocess`: the in-order interpretation pass. -/
def preprocess (env : String → ℝ) : List Instr → St → Except (Err × St) St
  | [], st => .ok st
  | i :: il, st => do
      let st1 ← process_instruction env i st
      preprocess env il st1

/-- The big-step evaluation relation of the interpretation pass: one
`cons` step per successfully processed instruction. -/
inductive Run (env : String → ℝ) : St → List Instr → St → Prop where
  | nil (st : St) : Run env st [] st
  | cons {i : Instr} {il : List Instr} {st st1 st2 : St} :
      process_instruction env i st = .ok st1 → Run env st1 il st2 →
      Run env st (i :: il) st2

/-! ## Theorems -/

set_option maxHeartbeats 2000000

@[simp] theorem Pt.add_x (A B : Pt) : (A + B).x = A.x + B.x := rfl

@[simp] theorem Pt.add_y (A B : Pt) : (A + B).y = A.y + B.y := rfl

@[simp] theorem Pt.sub_x (A B : Pt) : (A - B).x = A.x - B.x := rfl

@[simp] theorem Pt.sub_y (A B : Pt) : (A - B).y = A.y - B.y := rfl

@[simp] theorem Pt.smul_x (A : Pt) (k : ℝ) : (A.smul k).x = A.x * k := rfl

@[simp] theorem Pt.smul_y (A : Pt) (k : ℝ) : (A.smul k).y = A.y * k := rfl

theorem cond_pos {α : Sort _} {c : Prop} (h : c) (t f : α) : cond c t f = t := by
  unfold cond; exact if_pos h

theorem cond_neg {α : Sort _} {c : Prop} (h : ¬ c) (t f : α) : cond c t f = f := by
  unfold cond; exact if_neg h

/-! ## Basic facts about the kernel primitives -/

theorem sqdist_nonneg (A B : Pt) : 0 ≤ sqdist A B := by
  unfold sqdist; positivity

theorem dist_eq_sqrt (A B : Pt) : dist A B = Real.sqrt (sqdist A B) := by
  rw [dist, Real.sqrt_eq_rpow]

theorem dist_nonneg' (A B : Pt) : 0 ≤ dist A B := by
  rw [dist_eq_sqrt]; exact Real.sqrt_nonneg _

theorem sq_dist (A B : Pt) : dist A B ^ 2 = sqdist A B := by
  rw [dist_eq_sqrt]; exact Real.sq_sqrt (sqdist_nonneg A B)

theorem sqdist_eq_zero_iff (A B : Pt) : sqdist A B = 0 ↔ A = B := by
  unfold sqdist
  constructor
  · intro h
    have h1 : (A.x - B.x) ^ 2 = 0 ∧ (A.y - B.y) ^ 2 = 0 := by
      constructor <;> nlinarith [sq_nonneg (A.x - B.x), sq_nonneg (A.y - B.y)]
    have hx : A.x = B.x := by
      have := sq_eq_zero_iff.mp h1.1
      linarith
    have hy : A.y = B.y := by
      have := sq_eq_zero_iff.mp h1.2
      linarith
    exact Pt.ext hx hy
  · intro h; subst h; ring

theorem dist_eq_zero_iff (A B : Pt) : dist A B = 0 ↔ A = B := by
  rw [dist_eq_sqrt, Real.sqrt_eq_zero (sqdist_nonneg A B), sqdist_eq_zero_iff]

theorem dist_ne_zero_of_ne {A B : Pt} (h : A ≠ B) : dist A B ≠ 0 := by
  intro hc; exact h ((dist_eq_zero_iff A B).mp hc)

theorem coll_phi_of_eq_left (A C : Pt) : coll_phi A A C = 0 := by
  unfold coll_phi; ring

theorem coll_phi_of_eq_right (A C : Pt) : coll_phi A C C = 0 := by
  unfold coll_phi; ring

theorem coll_phi_of_eq_outer (A B : Pt) : coll_phi A B A = 0 := by
  unfold coll_phi; ring

/-- For a non-collinear triple the three vertices are pairwise distinct. -/
theorem pairwise_ne_of_coll_phi_ne {A B C : Pt} (h : coll_phi A B C ≠ 0) :
    A ≠ B ∧ B ≠ C ∧ A ≠ C := by
  refine ⟨?_, ?_, ?_⟩ <;> intro he <;> apply h
  · subst he; exact coll_phi_of_eq_left _ _
  · subst he; exact coll_phi_of_eq_right _ _
  · subst he; exact coll_phi_of_eq_outer _ _

/-- For a non-degenerate triangle, the circumcenter computed through the
side-length/Conway/barycentric chain has purely polynomial coordinates:
the `sqrt` side lengths cancel. -/
theorem circumcenter_coords (A B C : Pt) (h : coll_phi A B C ≠ 0) :
    circumcenter A B C =
      ⟨(sqdist B C * ((sqdist C A + sqdist A B - sqdist B C) / 2) * A.x +
        sqdist C A * ((sqdist A B + sqdist B C - sqdist C A) / 2) * B.x +
        sqdist A B * ((sqdist B C + sqdist C A - sqdist A B) / 2) * C.x) /
       (sqdist B C * ((sqdist C A + sqdist A B - sqdist B C) / 2) +
        sqdist C A * ((sqdist A B + sqdist B C - sqdist C A) / 2) +
        sqdist A B * ((sqdist B C + sqdist C A - sqdist A B) / 2)),
       (sqdist B C * ((sqdist C A + sqdist A B - sqdist B C) / 2) * A.y +
        sqdist C A * ((sqdist A B + sqdist B C - sqdist C A) / 2) * B.y +
        sqdist A B * ((sqdist B C + sqdist C A - sqdist A B) / 2) * C.y) /
       (sqdist B C * ((sqdist C A + sqdist A B - sqdist B C) / 2) +
        sqdist C A * ((sqdist A B + sqdist B C - sqdist C A) / 2) +
        sqdist A B * ((sqdist B C + sqdist C A - sqdist A B) / 2))⟩ := by
  obtain ⟨hAB, hBC, hAC⟩ := pairwise_ne_of_coll_phi_ne h
  have ha : dist B C ≠ 0 := dist_ne_zero_of_ne hBC
  have hb : dist C A ≠ 0 := dist_ne_zero_of_ne hAC.symm
  have hc : dist A B ≠ 0 := dist_ne_zero_of_ne hAB
  have ekilla : ∀ u : ℝ, dist B C * (u / dist B C) = u := by
    intro u; rw [mul_comm]; exact div_mul_cancel₀ u ha
  have ekillb : ∀ u : ℝ, dist C A * (u / dist C A) = u := by
    intro u; rw [mul_comm]; exact div_mul_cancel₀ u hb
  have ekillc : ∀ u : ℝ, dist A B * (u / dist A B) = u := by
    intro u; rw [mul_comm]; exact div_mul_cancel₀ u hc
  unfold circumcenter barycentric trilinear conway_vals side_lengths
  simp only [sq_dist, ekilla, ekillb, ekillc]

/-- Squared distance from a quotient-coordinate point. -/
theorem sqdist_div (nx ny Dn : ℝ) (hD : Dn ≠ 0) (P : Pt) :
    sqdist ⟨nx / Dn, ny / Dn⟩ P =
      ((nx - P.x * Dn) ^ 2 + (ny - P.y * Dn) ^ 2) / Dn ^ 2 := by
  unfold sqdist
  field_simp
  ring

/-- C1: for every triangle of points `A, B, C` with positive area (not
collinear), the point `O = circumcenter(A, B, C)` — computed via side
lengths, Conway values and the barycentric/trilinear formula — satisfies
`dist(O, A) = dist(O, B) = dist(O, C)`, exactly in exact arithmetic. -/
theorem circumcenter_equidistant (A B C : Pt) (h : coll_phi A B C ≠ 0) :
    dist (circumcenter A B C) A = dist (circumcenter A B C) B ∧
    dist (circumcenter A B C) B = dist (circumcenter A B C) C := by
  have hform := circumcenter_coords A B C h
  have hDn : (sqdist B C * ((sqdist C A + sqdist A B - sqdist B C) / 2) +
        sqdist C A * ((sqdist A B + sqdist B C - sqdist C A) / 2) +
        sqdist A B * ((sqdist B C + sqdist C A - sqdist A B) / 2)) =
      2 * coll_phi A B C ^ 2 := by
    unfold sqdist coll_phi; ring
  have hD : (sqdist B C * ((sqdist C A + sqdist A B - sqdist B C) / 2) +
        sqdist C A * ((sqdist A B + sqdist B C - sqdist C A) / 2) +
        sqdist A B * ((sqdist B C + sqdist C A - sqdist A B) / 2)) ≠ 0 := by
    rw [hDn]
    intro hc
    apply h
    have h2 : coll_phi A B C ^ 2 = 0 := by linarith
    exact sq_eq_zero_iff.mp h2
  have h1 : sqdist (circumcenter A B C) A = sqdist (circumcenter A B C) B := by
    rw [hform, sqdist_div _ _ _ hD, sqdist_div _ _ _ hD]
    congr 1
    unfold sqdist
    ring
  have h2 : sqdist (circumcenter A B C) B = sqdist (circumcenter A B C) C := by
    rw [hform, sqdist_div _ _ _ hD, sqdist_div _ _ _ hD]
    congr 1
    unfold sqdist
    ring
  rw [dist_eq_sqrt, dist_eq_sqrt, dist_eq_sqrt]
  exact ⟨congrArg Real.sqrt h1, congrArg Real.sqrt h2⟩

/-- Witness for C1 at the 3-4-5 right triangle `(0,0), (4,0), (0,3)`. -/
theorem circumcenter_equidistant_witness :
    coll_phi ⟨0, 0⟩ ⟨4, 0⟩ ⟨0, 3⟩ ≠ 0 ∧
    (dist (circumcenter ⟨0, 0⟩ ⟨4, 0⟩ ⟨0, 3⟩) ⟨0, 0⟩ =
       dist (circumcenter ⟨0, 0⟩ ⟨4, 0⟩ ⟨0, 3⟩) ⟨4, 0⟩ ∧
     dist (circumcenter ⟨0, 0⟩ ⟨4, 0⟩ ⟨0, 3⟩) ⟨4, 0⟩ =
       dist (circumcenter ⟨0, 0⟩ ⟨4, 0⟩ ⟨0, 3⟩) ⟨0, 3⟩) :=
  ⟨by norm_num [coll_phi],
   circumcenter_equidistant ⟨0, 0⟩ ⟨4, 0⟩ ⟨0, 3⟩ (by norm_num [coll_phi])⟩


/-- The point returned by `inter_ll` lies on the first line (definitional). -/
theorem inter_ll_on_fst (s1 s2 : SlopeInterceptForm) :
    (inter_ll s1 s2).y = s1.m * (inter_ll s1 s2).x + s1.b := rfl

/-- When the slopes differ, the point returned by `inter_ll` lies on the
second line as well. -/
theorem inter_ll_on_snd (s1 s2 : SlopeInterceptForm) (hm : s1.m - s2.m ≠ 0) :
    (inter_ll s1 s2).y = s2.m * (inter_ll s1 s2).x + s2.b := by
  unfold inter_ll
  dsimp only
  field_simp
  ring

/-- `foot_on_line` lies on the line `AB` and sees `O` orthogonally. -/
theorem foot_on_line_spec (O A B : Pt) (hs : sqdist A B ≠ 0) :
    ((foot_on_line O A B).y - A.y) * (B.x - A.x) =
      ((foot_on_line O A B).x - A.x) * (B.y - A.y) ∧
    ((foot_on_line O A B).x - O.x) * (B.x - A.x) +
      ((foot_on_line O A B).y - O.y) * (B.y - A.y) = 0 := by
  unfold foot_on_line inner_product sqdist at *
  simp only [Pt.add_x, Pt.add_y, Pt.smul_x, Pt.smul_y, Pt.sub_x, Pt.sub_y]
  constructor
  · field_simp
    ring
  · field_simp
    ring

/-- A point on the line `AB` whose connection to `O` is orthogonal to `AB`
is unique. -/
theorem on_line_perp_unique (O A B : Pt) (hs : sqdist A B ≠ 0) (P Q : Pt)
    (hP1 : (P.y - A.y) * (B.x - A.x) = (P.x - A.x) * (B.y - A.y))
    (hP2 : (P.x - O.x) * (B.x - A.x) + (P.y - O.y) * (B.y - A.y) = 0)
    (hQ1 : (Q.y - A.y) * (B.x - A.x) = (Q.x - A.x) * (B.y - A.y))
    (hQ2 : (Q.x - O.x) * (B.x - A.x) + (Q.y - O.y) * (B.y - A.y) = 0) :
    P = Q := by
  have hss : (B.x - A.x) ^ 2 + (B.y - A.y) ^ 2 ≠ 0 := by
    intro hc
    apply hs
    unfold sqdist
    linear_combination hc
  have hu : (P.x - Q.x) * ((B.x - A.x) ^ 2 + (B.y - A.y) ^ 2) = 0 := by
    linear_combination (B.x - A.x) * hP2 - (B.x - A.x) * hQ2 -
      (B.y - A.y) * hP1 + (B.y - A.y) * hQ1
  have hv : (P.y - Q.y) * ((B.x - A.x) ^ 2 + (B.y - A.y) ^ 2) = 0 := by
    linear_combination (B.y - A.y) * hP2 - (B.y - A.y) * hQ2 +
      (B.x - A.x) * hP1 - (B.x - A.x) * hQ1
  have hx0 : P.x - Q.x = 0 := by
    rcases mul_eq_zero.mp hu with h | h
    · exact h
    · exact absurd h hss
  have hy0 : P.y - Q.y = 0 := by
    rcases mul_eq_zero.mp hv with h | h
    · exact h
    · exact absurd h hss
  ext
  · linarith
  · linarith

/-- The auxiliary construction `inter_ll(l, pp2sif(O, Operp))` with
`Operp = rot90ccw(A - B) + O` computes the orthogonal projection of `O`
onto the line through `A` and `B` (the line's closest approach to `O`),
provided the line is neither vertical nor horizontal. -/
theorem inter_ll_perp_foot (O A B : Pt) (hx : A.x ≠ B.x) (hy : A.y ≠ B.y) :
    inter_ll (pp2sif A B) (pp2sif O (rotate_counterclockwise_90 (A - B) + O)) =
      foot_on_line O A B := by
  have hx' : B.x - A.x ≠ 0 := sub_ne_zero.mpr (Ne.symm hx)
  have hy' : B.y - A.y ≠ 0 := sub_ne_zero.mpr (Ne.symm hy)
  have hs : sqdist A B ≠ 0 := by
    intro hc
    exact hx (congrArg Pt.x ((sqdist_eq_zero_iff A B).mp hc))
  have hrot : rotate_counterclockwise_90 (A - B) + O =
      ⟨B.y - A.y + O.x, A.x - B.x + O.y⟩ := by
    unfold rotate_counterclockwise_90 matrix_mul inner_product const
    ext <;> simp
  rw [hrot]
  have hm1 : (pp2sif A B).m = (B.y - A.y) / (B.x - A.x) := rfl
  have hb1 : (pp2sif A B).b = A.y - (B.y - A.y) / (B.x - A.x) * A.x := rfl
  have hm2 : (pp2sif O ⟨B.y - A.y + O.x, A.x - B.x + O.y⟩).m =
      (A.x - B.x) / (B.y - A.y) := by
    unfold pp2sif
    dsimp only
    rw [add_sub_cancel_right, add_sub_cancel_right]
  have hb2 : (pp2sif O ⟨B.y - A.y + O.x, A.x - B.x + O.y⟩).b =
      O.y - (A.x - B.x) / (B.y - A.y) * O.x := by
    unfold pp2sif
    dsimp only
    rw [add_sub_cancel_right, add_sub_cancel_right]
  have hmd : (pp2sif A B).m - (pp2sif O ⟨B.y - A.y + O.x, A.x - B.x + O.y⟩).m ≠ 0 := by
    rw [hm1, hm2]
    have he : (B.y - A.y) / (B.x - A.x) - (A.x - B.x) / (B.y - A.y) =
        ((B.y - A.y) ^ 2 + (B.x - A.x) ^ 2) / ((B.x - A.x) * (B.y - A.y)) := by
      field_simp
      ring
    rw [he]
    apply div_ne_zero
    · have h3 : 0 < (B.y - A.y) ^ 2 := by positivity
      nlinarith [sq_nonneg (B.x - A.x)]
    · exact mul_ne_zero hx' hy'
  set F := inter_ll (pp2sif A B) (pp2sif O ⟨B.y - A.y + O.x, A.x - B.x + O.y⟩) with hF
  have hline1 : (F.y - A.y) * (B.x - A.x) = (F.x - A.x) * (B.y - A.y) := by
    have h1 := inter_ll_on_fst (pp2sif A B) (pp2sif O ⟨B.y - A.y + O.x, A.x - B.x + O.y⟩)
    rw [← hF] at h1
    rw [hm1, hb1] at h1
    rw [h1]
    field_simp
    ring
  have hline2 : (F.x - O.x) * (B.x - A.x) + (F.y - O.y) * (B.y - A.y) = 0 := by
    have h2 := inter_ll_on_snd (pp2sif A B) (pp2sif O ⟨B.y - A.y + O.x, A.x - B.x + O.y⟩) hmd
    rw [← hF] at h2
    rw [hm2, hb2] at h2
    rw [h2]
    field_simp
    ring
  obtain ⟨hf1, hf2⟩ := foot_on_line_spec O A B hs
  exact on_line_perp_unique O A B hs F (foot_on_line O A B) hline1 hline2 hf1 hf2

theorem shiftP_origin (P : Pt) : shiftP ⟨0, 0⟩ P = P := by
  unfold shiftP; ext <;> simp

theorem unshiftP_origin (P : Pt) : unshiftP ⟨0, 0⟩ P = P := by
  unfold unshiftP; ext <;> simp

/-- Evaluation helper for concrete distances. -/
theorem dist_eval (P Q : Pt) (a b : ℝ) (h1 : sqdist P Q = a) (hb : 0 ≤ b)
    (h2 : b ^ 2 = a) : dist P Q = b := by
  rw [dist_eq_sqrt, h1, ← h2, Real.sqrt_sq hb]

/-- On a negative radicand, `inter_pp_c` takes the `on_neg` branch and
returns the same point twice: the unshifted midpoint of the foot of the
perpendicular dropped from the point with the center's absolute
coordinates (inside the shifted frame) and that foot's radial projection
to distance `r`. -/
theorem inter_pp_c_neg_general (P1 P2 : Pt) (cnf : CircleNF)
    (hx : P1.x ≠ P2.x) (hy : P1.y ≠ P2.y)
    (hrad : line_circle_radicand P1 P2 cnf < 0) :
    inter_pp_c P1 P2 cnf =
      (unshiftP cnf.center
         (midp (foot_on_line cnf.center (shiftP cnf.center P1) (shiftP cnf.center P2))
               (proj_to_circle cnf.center cnf.radius
                 (foot_on_line cnf.center (shiftP cnf.center P1) (shiftP cnf.center P2)))),
       unshiftP cnf.center
         (midp (foot_on_line cnf.center (shiftP cnf.center P1) (shiftP cnf.center P2))
               (proj_to_circle cnf.center cnf.radius
                 (foot_on_line cnf.center (shiftP cnf.center P1) (shiftP cnf.center P2))))) := by
  have hradlt : lt (line_circle_radicand P1 P2 cnf) (const 0) := hrad
  have hsx : (shiftP cnf.center P1).x ≠ (shiftP cnf.center P2).x := by
    unfold shiftP
    dsimp only
    intro hc
    exact hx (by linarith)
  have hsy : (shiftP cnf.center P1).y ≠ (shiftP cnf.center P2).y := by
    unfold shiftP
    dsimp only
    intro hc
    exact hy (by linarith)
  unfold inter_pp_c
  dsimp only
  rw [cond_pos hradlt]
  rw [inter_ll_perp_foot cnf.center (shiftP cnf.center P1) (shiftP cnf.center P2) hsx hsy]
  rfl

/-- C2 (amended): on a negative radicand with the circle centered at the
origin, `inter_pp_c` returns two identical points equal to the midpoint of
the line's closest-approach foot and that foot's projection onto the
circle. -/
theorem inter_pp_c_neg_radicand_midpoint (P1 P2 : Pt) (r : ℝ)
    (hx : P1.x ≠ P2.x) (hy : P1.y ≠ P2.y)
    (hrad : line_circle_radicand P1 P2 ⟨⟨0, 0⟩, r⟩ < 0) :
    inter_pp_c P1 P2 ⟨⟨0, 0⟩, r⟩ =
      (midp_foot_proj ⟨0, 0⟩ r P1 P2, midp_foot_proj ⟨0, 0⟩ r P1 P2) := by
  rw [inter_pp_c_neg_general P1 P2 ⟨⟨0, 0⟩, r⟩ hx hy hrad]
  unfold midp_foot_proj
  rw [shiftP_origin, shiftP_origin, unshiftP_origin]

/-- C2 counterexample: a line missing the unit circle at the origin
(radicand `-5400`), where the fallback point returned by `inter_pp_c` is
the midpoint `(9/5, 12/5)` and NOT the projection `(3/5, 4/5)` of the
line's nearest point onto the circle; and a translated copy of the same
configuration (center `(5,0)`), where the returned point does not even
agree with the midpoint-of-foot-and-projection computed for the actual
circle, because the fallback reuses the center's absolute coordinates
inside the center-shifted frame. -/
theorem inter_pp_c_fallback_counterexample :
    line_circle_radicand ⟨-5, 10⟩ ⟨7, 1⟩ ⟨⟨0, 0⟩, 1⟩ < 0 ∧
    inter_pp_c ⟨-5, 10⟩ ⟨7, 1⟩ ⟨⟨0, 0⟩, 1⟩ = (⟨9 / 5, 12 / 5⟩, ⟨9 / 5, 12 / 5⟩) ∧
    proj_to_circle ⟨0, 0⟩ 1 (foot_on_line ⟨0, 0⟩ ⟨-5, 10⟩ ⟨7, 1⟩) = ⟨3 / 5, 4 / 5⟩ ∧
    (⟨9 / 5, 12 / 5⟩ : Pt) ≠ ⟨3 / 5, 4 / 5⟩ ∧
    line_circle_radicand ⟨0, 10⟩ ⟨12, 1⟩ ⟨⟨5, 0⟩, 1⟩ < 0 ∧
    inter_pp_c ⟨0, 10⟩ ⟨12, 1⟩ ⟨⟨5, 0⟩, 1⟩ = (⟨109 / 10, 6 / 5⟩, ⟨109 / 10, 6 / 5⟩) ∧
    midp_foot_proj ⟨5, 0⟩ 1 ⟨0, 10⟩ ⟨12, 1⟩ = ⟨34 / 5, 12 / 5⟩ ∧
    (⟨109 / 10, 6 / 5⟩ : Pt) ≠ ⟨34 / 5, 12 / 5⟩ := by
  have lcr1 : line_circle_radicand ⟨-5, 10⟩ ⟨7, 1⟩ ⟨⟨0, 0⟩, 1⟩ = -5400 := by
    unfold line_circle_radicand shiftP sqrt
    dsimp only
    norm_num
  have lcr2 : line_circle_radicand ⟨0, 10⟩ ⟨12, 1⟩ ⟨⟨5, 0⟩, 1⟩ = -5400 := by
    unfold line_circle_radicand shiftP sqrt
    dsimp only
    norm_num
  have foot1 : foot_on_line ⟨0, 0⟩ ⟨-5, 10⟩ ⟨7, 1⟩ = ⟨3, 4⟩ := by
    unfold foot_on_line inner_product sqdist
    ext <;> simp <;> norm_num
  have proj1 : proj_to_circle ⟨0, 0⟩ 1 ⟨3, 4⟩ = ⟨3 / 5, 4 / 5⟩ := by
    unfold proj_to_circle
    rw [dist_eval ⟨0, 0⟩ ⟨3, 4⟩ 25 5 (by norm_num [sqdist]) (by norm_num) (by norm_num)]
    ext <;> simp <;> norm_num
  have midp1 : midp ⟨3, 4⟩ ⟨3 / 5, 4 / 5⟩ = ⟨9 / 5, 12 / 5⟩ := by
    unfold midp
    ext <;> simp <;> norm_num
  have sh1 : shiftP ⟨5, 0⟩ ⟨0, 10⟩ = ⟨-5, 10⟩ := by
    unfold shiftP; ext <;> norm_num
  have sh2 : shiftP ⟨5, 0⟩ ⟨12, 1⟩ = ⟨7, 1⟩ := by
    unfold shiftP; ext <;> norm_num
  have foot2 : foot_on_line ⟨5, 0⟩ ⟨-5, 10⟩ ⟨7, 1⟩ = ⟨31 / 5, 8 / 5⟩ := by
    unfold foot_on_line inner_product sqdist
    ext <;> simp <;> norm_num
  have proj2 : proj_to_circle ⟨5, 0⟩ 1 ⟨31 / 5, 8 / 5⟩ = ⟨28 / 5, 4 / 5⟩ := by
    unfold proj_to_circle
    rw [dist_eval ⟨5, 0⟩ ⟨31 / 5, 8 / 5⟩ 4 2 (by norm_num [sqdist]) (by norm_num) (by norm_num)]
    ext <;> simp <;> norm_num
  have midp2 : midp ⟨31 / 5, 8 / 5⟩ ⟨28 / 5, 4 / 5⟩ = ⟨59 / 10, 6 / 5⟩ := by
    unfold midp
    ext <;> simp <;> norm_num
  have unsh2 : unshiftP ⟨5, 0⟩ ⟨59 / 10, 6 / 5⟩ = ⟨109 / 10, 6 / 5⟩ := by
    unfold unshiftP; ext <;> norm_num
  have tfoot : foot_on_line ⟨5, 0⟩ ⟨0, 10⟩ ⟨12, 1⟩ = ⟨8, 4⟩ := by
    unfold foot_on_line inner_product sqdist
    ext <;> simp <;> norm_num
  have tproj : proj_to_circle ⟨5, 0⟩ 1 ⟨8, 4⟩ = ⟨28 / 5, 4 / 5⟩ := by
    unfold proj_to_circle
    rw [dist_eval ⟨5, 0⟩ ⟨8, 4⟩ 25 5 (by norm_num [sqdist]) (by norm_num) (by norm_num)]
    ext <;> simp <;> norm_num
  have tmidp : midp ⟨8, 4⟩ ⟨28 / 5, 4 / 5⟩ = ⟨34 / 5, 12 / 5⟩ := by
    unfold midp
    ext <;> simp <;> norm_num
  refine ⟨by rw [lcr1]; norm_num, ?_, ?_, ?_, by rw [lcr2]; norm_num, ?_, ?_, ?_⟩
  · rw [inter_pp_c_neg_general ⟨-5, 10⟩ ⟨7, 1⟩ ⟨⟨0, 0⟩, 1⟩ (by norm_num) (by norm_num)
      (by rw [lcr1]; norm_num)]
    rw [show (CircleNF.mk ⟨0, 0⟩ 1).center = ⟨0, 0⟩ from rfl,
        show (CircleNF.mk ⟨0, 0⟩ 1).radius = 1 from rfl]
    rw [shiftP_origin, shiftP_origin, foot1, proj1, midp1, unshiftP_origin]
  · rw [foot1, proj1]
  · intro hc
    have := congrArg Pt.x hc
    norm_num at this
  · rw [inter_pp_c_neg_general ⟨0, 10⟩ ⟨12, 1⟩ ⟨⟨5, 0⟩, 1⟩ (by norm_num) (by norm_num)
      (by rw [lcr2]; norm_num)]
    rw [show (CircleNF.mk ⟨5, 0⟩ 1).center = ⟨5, 0⟩ from rfl,
        show (CircleNF.mk ⟨5, 0⟩ 1).radius = 1 from rfl]
    rw [sh1, sh2, foot2, proj2, midp2, unsh2]
  · unfold midp_foot_proj
    rw [tfoot, tproj, tmidp]
  · intro hc
    have := congrArg Pt.x hc
    norm_num at this

/-- Witness for the amended C2 theorem at the first counterexample
configuration. -/
theorem inter_pp_c_neg_radicand_midpoint_witness :
    ((⟨-5, 10⟩ : Pt).x ≠ (⟨7, 1⟩ : Pt).x ∧ (⟨-5, 10⟩ : Pt).y ≠ (⟨7, 1⟩ : Pt).y ∧
     line_circle_radicand ⟨-5, 10⟩ ⟨7, 1⟩ ⟨⟨0, 0⟩, 1⟩ < 0) ∧
    inter_pp_c ⟨-5, 10⟩ ⟨7, 1⟩ ⟨⟨0, 0⟩, 1⟩ =
      (midp_foot_proj ⟨0, 0⟩ 1 ⟨-5, 10⟩ ⟨7, 1⟩, midp_foot_proj ⟨0, 0⟩ 1 ⟨-5, 10⟩ ⟨7, 1⟩) := by
  have lcr1 : line_circle_radicand ⟨-5, 10⟩ ⟨7, 1⟩ ⟨⟨0, 0⟩, 1⟩ = -5400 := by
    unfold line_circle_radicand shiftP sqrt
    dsimp only
    norm_num
  exact ⟨⟨by norm_num, by norm_num, by rw [lcr1]; norm_num⟩,
    inter_pp_c_neg_radicand_midpoint ⟨-5, 10⟩ ⟨7, 1⟩ 1 (by norm_num) (by norm_num)
      (by rw [lcr1]; norm_num)⟩

theorem pp2sif_p1 (p1 p2 : Pt) : (pp2sif p1 p2).p1 = p1 := rfl

theorem pp2sif_p2 (p1 p2 : Pt) : (pp2sif p1 p2).p2 = p2 := rfl

/-- The penalty of `make_lc_intersect` in closed form: short-circuit to
zero on the degenerate guard, else a hinge on the distance from the
center to the line. -/
theorem lc_penalty_closed_form (O : Pt) (r : ℝ) (P Q : Pt)
    (hPx : P.x ≠ Q.x) (hPy : P.y ≠ Q.y) :
    lc_penalty (pp2sif P Q) ⟨O, r⟩ =
      cond (logical_or (lt (dist O (rotate_counterclockwise_90 (P - Q) + O)) 1e-6)
                       (lt (dist P Q) 1e-6))
        (const 0)
        (cond (lt r (dist_to_line O P Q)) (dist_to_line O P Q) (const 0)) := by
  unfold lc_penalty dist_to_line
  dsimp only
  rw [pp2sif_p1, pp2sif_p2, inter_ll_perp_foot O P Q hPx hPy]

/-- C3 counterexample: the horizontal line through `(0,0)` and `(4,0)`
against the circle of radius 1 at `(3, 1/2)`.  The distance from the
center to the line is `1/2 <= 1` and the degeneracy guard does not fire,
yet the registered penalty is `sqrt(37)/2`, not 0: the perpendicular
`pp2sif(O, Operp)` divides by zero, producing a junk foot at the
origin. -/
theorem make_lc_intersect_hinge_counterexample :
    dist_to_line ⟨3, 1 / 2⟩ ⟨0, 0⟩ ⟨4, 0⟩ ≤ 1 ∧
    ¬ (lt (dist (⟨3, 1 / 2⟩ : Pt)
          (rotate_counterclockwise_90 ((⟨0, 0⟩ : Pt) - ⟨4, 0⟩) + ⟨3, 1 / 2⟩)) 1e-6 ∨
       lt (dist (⟨0, 0⟩ : Pt) ⟨4, 0⟩) 1e-6) ∧
    lc_penalty (pp2sif ⟨0, 0⟩ ⟨4, 0⟩) ⟨⟨3, 1 / 2⟩, 1⟩ = Real.sqrt 37 / 2 ∧
    lc_penalty (pp2sif ⟨0, 0⟩ ⟨4, 0⟩) ⟨⟨3, 1 / 2⟩, 1⟩ ≠ 0 := by
  have hrot : rotate_counterclockwise_90 ((⟨0, 0⟩ : Pt) - ⟨4, 0⟩) + ⟨3, 1 / 2⟩ =
      (⟨3, -7 / 2⟩ : Pt) := by
    unfold rotate_counterclockwise_90 matrix_mul inner_product const
    ext <;> simp
    norm_num
  have hOd : dist (⟨3, 1 / 2⟩ : Pt) ⟨3, -7 / 2⟩ = 4 :=
    dist_eval _ _ 16 4 (by norm_num [sqdist]) (by norm_num) (by norm_num)
  have hab : dist (⟨0, 0⟩ : Pt) ⟨4, 0⟩ = 4 :=
    dist_eval _ _ 16 4 (by norm_num [sqdist]) (by norm_num) (by norm_num)
  have hns : ¬ logical_or
      (lt (dist (⟨3, 1 / 2⟩ : Pt) ⟨3, -7 / 2⟩) 1e-6)
      (lt (dist (⟨0, 0⟩ : Pt) ⟨4, 0⟩) 1e-6) := by
    rw [hOd, hab]
    rintro (hc | hc) <;> · unfold lt at hc; norm_num at hc
  have hF : inter_ll (pp2sif ⟨0, 0⟩ ⟨4, 0⟩) (pp2sif ⟨3, 1 / 2⟩ ⟨3, -7 / 2⟩) =
      (⟨0, 0⟩ : Pt) := by
    unfold inter_ll pp2sif
    ext <;> simp
  have hd : dist (⟨3, 1 / 2⟩ : Pt) ⟨0, 0⟩ = Real.sqrt 37 / 2 :=
    dist_eval _ _ (37 / 4) (Real.sqrt 37 / 2) (by norm_num [sqdist])
      (by positivity)
      (by rw [div_pow, Real.sq_sqrt (by norm_num : (0 : ℝ) ≤ 37)]; norm_num)
  have hlt : lt 1 (Real.sqrt 37 / 2) := by
    have h2 : (2 : ℝ) < Real.sqrt 37 :=
      (Real.lt_sqrt (by norm_num)).mpr (by norm_num)
    unfold lt
    linarith
  have hpen : lc_penalty (pp2sif ⟨0, 0⟩ ⟨4, 0⟩) ⟨⟨3, 1 / 2⟩, 1⟩ =
      Real.sqrt 37 / 2 := by
    unfold lc_penalty
    dsimp only
    rw [pp2sif_p1, pp2sif_p2, hrot, hF, hd, cond_neg hns, cond_pos hlt]
  refine ⟨?_, ?_, hpen, ?_⟩
  · unfold dist_to_line
    have hfoot : foot_on_line ⟨3, 1 / 2⟩ ⟨0, 0⟩ ⟨4, 0⟩ = ⟨3, 0⟩ := by
      unfold foot_on_line inner_product sqdist
      ext <;> simp
      norm_num
    rw [hfoot,
      dist_eval ⟨3, 1 / 2⟩ ⟨3, 0⟩ (1 / 4) (1 / 2) (by norm_num [sqdist])
        (by norm_num) (by norm_num)]
    norm_num
  · rw [hrot]
    exact hns
  · rw [hpen]
    positivity

/-- C3 (amended): for a line through `A, B` parallel to neither
coordinate axis (so the slope-intercept auxiliary construction is
defined), the loss registered by `make_lc_intersect` against the circle
`(O, r)` is zero when short-circuited by the degenerate guard, zero
whenever the distance `d` from the center to the line is at most `r`,
equal to `d` when `d > r`, and hence strictly increasing in `d - r`
beyond the radius. -/
theorem make_lc_intersect_hinge (O : Pt) (r : ℝ) (A B A2 B2 : Pt)
    (hx : A.x ≠ B.x) (hy : A.y ≠ B.y) (hx2 : A2.x ≠ B2.x) (hy2 : A2.y ≠ B2.y) :
    (lt (dist O (rotate_counterclockwise_90 (A - B) + O)) 1e-6 ∨ lt (dist A B) 1e-6 →
      lc_penalty (pp2sif A B) ⟨O, r⟩ = 0) ∧
    (¬ (lt (dist O (rotate_counterclockwise_90 (A - B) + O)) 1e-6 ∨ lt (dist A B) 1e-6) →
      dist_to_line O A B ≤ r → lc_penalty (pp2sif A B) ⟨O, r⟩ = 0) ∧
    (¬ (lt (dist O (rotate_counterclockwise_90 (A - B) + O)) 1e-6 ∨ lt (dist A B) 1e-6) →
      r < dist_to_line O A B → lc_penalty (pp2sif A B) ⟨O, r⟩ = dist_to_line O A B) ∧
    (¬ (lt (dist O (rotate_counterclockwise_90 (A - B) + O)) 1e-6 ∨ lt (dist A B) 1e-6) →
      ¬ (lt (dist O (rotate_counterclockwise_90 (A2 - B2) + O)) 1e-6 ∨ lt (dist A2 B2) 1e-6) →
      r < dist_to_line O A B → r < dist_to_line O A2 B2 →
      dist_to_line O A B - r < dist_to_line O A2 B2 - r →
      lc_penalty (pp2sif A B) ⟨O, r⟩ < lc_penalty (pp2sif A2 B2) ⟨O, r⟩) ∧
    (∀ (st : St) (nm : String),
      (make_lc_intersect nm (pp2sif A B) ⟨O, r⟩ st).losses =
        st.losses ++ [("interLC_" ++ nm, lc_penalty (pp2sif A B) ⟨O, r⟩, 1e-1)]) := by
  refine ⟨?_, ?_, ?_, ?_, fun _ _ => rfl⟩
  · intro h
    have h' : logical_or (lt (dist O (rotate_counterclockwise_90 (A - B) + O)) 1e-6)
        (lt (dist A B) 1e-6) := h
    rw [lc_penalty_closed_form O r A B hx hy, cond_pos h']
    rfl
  · intro hns hdr
    have hns' : ¬ logical_or (lt (dist O (rotate_counterclockwise_90 (A - B) + O)) 1e-6)
        (lt (dist A B) 1e-6) := hns
    have hdr' : ¬ lt r (dist_to_line O A B) := not_lt.mpr hdr
    rw [lc_penalty_closed_form O r A B hx hy, cond_neg hns', cond_neg hdr']
    rfl
  · intro hns hrd
    have hns' : ¬ logical_or (lt (dist O (rotate_counterclockwise_90 (A - B) + O)) 1e-6)
        (lt (dist A B) 1e-6) := hns
    have hrd' : lt r (dist_to_line O A B) := hrd
    rw [lc_penalty_closed_form O r A B hx hy, cond_neg hns', cond_pos hrd']
  · intro h1 h2 hr1 hr2 hlt
    have h1' : ¬ logical_or (lt (dist O (rotate_counterclockwise_90 (A - B) + O)) 1e-6)
        (lt (dist A B) 1e-6) := h1
    have h2' : ¬ logical_or (lt (dist O (rotate_counterclockwise_90 (A2 - B2) + O)) 1e-6)
        (lt (dist A2 B2) 1e-6) := h2
    have hr1' : lt r (dist_to_line O A B) := hr1
    have hr2' : lt r (dist_to_line O A2 B2) := hr2
    rw [lc_penalty_closed_form O r A B hx hy, cond_neg h1', cond_pos hr1',
        lc_penalty_closed_form O r A2 B2 hx2 hy2, cond_neg h2', cond_pos hr2']
    linarith

/-- Witness for C3: unit circle at the origin; the line at distance 5
yields penalty 5, the line at distance 10 yields penalty 10, and 5 < 10. -/
theorem make_lc_intersect_hinge_witness :
    ((⟨-5, 10⟩ : Pt).x ≠ (⟨7, 1⟩ : Pt).x ∧ (⟨-5, 10⟩ : Pt).y ≠ (⟨7, 1⟩ : Pt).y ∧
     (⟨10, 5⟩ : Pt).x ≠ (⟨2, 11⟩ : Pt).x ∧ (⟨10, 5⟩ : Pt).y ≠ (⟨2, 11⟩ : Pt).y) ∧
    lc_penalty (pp2sif ⟨-5, 10⟩ ⟨7, 1⟩) ⟨⟨0, 0⟩, 1⟩ <
      lc_penalty (pp2sif ⟨10, 5⟩ ⟨2, 11⟩) ⟨⟨0, 0⟩, 1⟩ := by
  have hrot1 : rotate_counterclockwise_90 ((⟨-5, 10⟩ : Pt) - ⟨7, 1⟩) + ⟨0, 0⟩ =
      (⟨-9, -12⟩ : Pt) := by
    unfold rotate_counterclockwise_90 matrix_mul inner_product const
    ext <;> simp <;> norm_num
  have hrot2 : rotate_counterclockwise_90 ((⟨10, 5⟩ : Pt) - ⟨2, 11⟩) + ⟨0, 0⟩ =
      (⟨6, 8⟩ : Pt) := by
    unfold rotate_counterclockwise_90 matrix_mul inner_product const
    ext <;> simp <;> norm_num
  have hd1 : dist (⟨0, 0⟩ : Pt) ⟨-9, -12⟩ = 15 :=
    dist_eval ⟨0, 0⟩ ⟨-9, -12⟩ 225 15 (by norm_num [sqdist]) (by norm_num) (by norm_num)
  have hd2 : dist (⟨0, 0⟩ : Pt) ⟨6, 8⟩ = 10 :=
    dist_eval ⟨0, 0⟩ ⟨6, 8⟩ 100 10 (by norm_num [sqdist]) (by norm_num) (by norm_num)
  have hab1 : dist (⟨-5, 10⟩ : Pt) ⟨7, 1⟩ = 15 :=
    dist_eval ⟨-5, 10⟩ ⟨7, 1⟩ 225 15 (by norm_num [sqdist]) (by norm_num) (by norm_num)
  have hab2 : dist (⟨10, 5⟩ : Pt) ⟨2, 11⟩ = 10 :=
    dist_eval ⟨10, 5⟩ ⟨2, 11⟩ 100 10 (by norm_num [sqdist]) (by norm_num) (by norm_num)
  have hdl1 : dist_to_line ⟨0, 0⟩ ⟨-5, 10⟩ ⟨7, 1⟩ = 5 := by
    unfold dist_to_line
    have foot1 : foot_on_line ⟨0, 0⟩ ⟨-5, 10⟩ ⟨7, 1⟩ = ⟨3, 4⟩ := by
      unfold foot_on_line inner_product sqdist
      ext <;> simp <;> norm_num
    rw [foot1]
    exact dist_eval ⟨0, 0⟩ ⟨3, 4⟩ 25 5 (by norm_num [sqdist]) (by norm_num) (by norm_num)
  have hdl2 : dist_to_line ⟨0, 0⟩ ⟨10, 5⟩ ⟨2, 11⟩ = 10 := by
    unfold dist_to_line
    have foot2 : foot_on_line ⟨0, 0⟩ ⟨10, 5⟩ ⟨2, 11⟩ = ⟨6, 8⟩ := by
      unfold foot_on_line inner_product sqdist
      ext <;> simp <;> norm_num
    rw [foot2]
    exact dist_eval ⟨0, 0⟩ ⟨6, 8⟩ 100 10 (by norm_num [sqdist]) (by norm_num) (by norm_num)
  have hns1 : ¬ (lt (dist (⟨0, 0⟩ : Pt)
        (rotate_counterclockwise_90 ((⟨-5, 10⟩ : Pt) - ⟨7, 1⟩) + ⟨0, 0⟩)) 1e-6 ∨
      lt (dist (⟨-5, 10⟩ : Pt) ⟨7, 1⟩) 1e-6) := by
    rw [hrot1, hd1, hab1]
    rintro (hc | hc) <;> · unfold lt at hc; norm_num at hc
  have hns2 : ¬ (lt (dist (⟨0, 0⟩ : Pt)
        (rotate_counterclockwise_90 ((⟨10, 5⟩ : Pt) - ⟨2, 11⟩) + ⟨0, 0⟩)) 1e-6 ∨
      lt (dist (⟨10, 5⟩ : Pt) ⟨2, 11⟩) 1e-6) := by
    rw [hrot2, hd2, hab2]
    rintro (hc | hc) <;> · unfold lt at hc; norm_num at hc
  exact ⟨⟨by norm_num, by norm_num, by norm_num, by norm_num⟩,
    (make_lc_intersect_hinge ⟨0, 0⟩ 1 ⟨-5, 10⟩ ⟨7, 1⟩ ⟨10, 5⟩ ⟨2, 11⟩
        (by norm_num) (by norm_num) (by norm_num) (by norm_num)).2.2.2.1 hns1 hns2
      (by rw [hdl1]; norm_num) (by rw [hdl2]; norm_num)
      (by rw [hdl1, hdl2]; norm_num)⟩

/-- C4 counterexample: `process_rs` under `arbitrary` is not invariant
under swapping the two candidates — it returns whichever candidate is
passed second. -/
theorem process_rs_arbitrary_counterexample :
    process_rs ⟨0, 0⟩ ⟨1, 0⟩ .arbitrary St.empty = .ok ⟨1, 0⟩ ∧
    process_rs ⟨1, 0⟩ ⟨0, 0⟩ .arbitrary St.empty = .ok ⟨0, 0⟩ ∧
    (⟨1, 0⟩ : Pt) ≠ ⟨0, 0⟩ := by
  refine ⟨rfl, rfl, ?_⟩
  intro hc
  have := congrArg Pt.x hc
  norm_num at this

/-- C4 (amended): `process_rs` with the `arbitrary` policy
deterministically returns its second candidate argument (the declared
canonical branch), for every state and pair of candidates. -/
theorem process_rs_arbitrary_second (P1 P2 : Pt) (st : St) :
    process_rs P1 P2 .arbitrary st = .ok P2 := rfl

/-- C6: the interpretation pass is deterministic — two runs of the same
instruction list from the same state (hence the same free-variable
environment and sampled values) end in the same state, with identical
registries and residual maps. -/
theorem preprocess_deterministic (env : String → ℝ) (st : St)
    (il : List Instr) (s1 s2 : St)
    (h1 : Run env st il s1) (h2 : Run env st il s2) : s1 = s2 := by
  induction h1 generalizing s2 with
  | nil _ =>
      cases h2 with
      | nil _ => rfl
  | cons hstep _ ih =>
      cases h2 with
      | cons hstep2 hrun2 =>
          have he := hstep.symm.trans hstep2
          injection he with he'
          subst he'
          exact ih _ hrun2

/-- C8: the `rightTri` sampler (and likewise `isoTri` and `acuteIsoTri`)
dispatches through the unbound name `args` — the method assigned
`s_args` instead — so it raises a NameError before registering anything,
leaving the state unchanged. -/
theorem sample_rightTri_unbound_args (env : String → ℝ)
    (ps sargs : List String) (st : St) :
    process_instruction env (.sample ps "rightTri" sargs) st =
      .error (.unboundArgs, st) ∧
    process_instruction env (.sample ps "isoTri" sargs) st =
      .error (.unboundArgs, st) ∧
    process_instruction env (.sample ps "acuteIsoTri" sargs) st =
      .error (.unboundArgs, st) :=
  ⟨rfl, rfl, rfl⟩

/-- C9: `eqratio_diff` and the `diam` branch of `circ2nf` evaluate the
unqualified name `dist`, so the `eqratio` predicate and `diam` conversion
always fail with an unbound-identifier error instead of returning a
value. -/
theorem eqratio_diam_unbound_dist :
    (∀ A B C D P Q R S2 : Pt,
       eqratio_diff A B C D P Q R S2 = .error .unboundDist) ∧
    (∀ (st : St) (ps : List String) (B C : Pt),
       lookup_pts st ps = .ok [B, C] →
       circ2nf st (.diam ps) = .error .unboundDist) ∧
    (∀ (st : St) (ps : List String) (A B C D P Q R S2 : Pt),
       lookup_pts st ps = .ok [A, B, C, D, P, Q, R, S2] →
       assertion_vals st "eqratio" ps = .error .unboundDist) := by
  refine ⟨fun _ _ _ _ _ _ _ _ => rfl, ?_, ?_⟩
  · intro st ps B C h
    unfold circ2nf
    dsimp only
    rw [h]
    rfl
  · intro st ps A B C D P Q R S2 h
    unfold assertion_vals
    rw [h]
    rfl

/-- Witness for C9 at a concrete two-point and eight-point registry. -/
theorem eqratio_diam_unbound_dist_witness :
    (lookup_pts (register_pt "q" ⟨1, 0⟩ (register_pt "p" ⟨0, 0⟩ St.empty))
        ["p", "q"] = .ok [⟨0, 0⟩, ⟨1, 0⟩] ∧
     circ2nf (register_pt "q" ⟨1, 0⟩ (register_pt "p" ⟨0, 0⟩ St.empty))
        (.diam ["p", "q"]) = .error .unboundDist) ∧
    eqratio_diff ⟨0, 0⟩ ⟨1, 0⟩ ⟨0, 1⟩ ⟨1, 1⟩ ⟨2, 0⟩ ⟨0, 2⟩ ⟨2, 2⟩ ⟨3, 3⟩ =
      .error .unboundDist :=
  ⟨⟨rfl, eqratio_diam_unbound_dist.2.1 _ ["p", "q"] ⟨0, 0⟩ ⟨1, 0⟩ rfl⟩,
   eqratio_diam_unbound_dist.1 ⟨0, 0⟩ ⟨1, 0⟩ ⟨0, 1⟩ ⟨1, 1⟩ ⟨2, 0⟩ ⟨0, 2⟩ ⟨2, 2⟩ ⟨3, 3⟩⟩

/-- C10: `harmonic_l_conj` evaluates the unqualified name `const` while
building its auxiliary point `L`, so every `harmonicLConj` Compute
instruction fails with an unbound-identifier error before any point is
registered, leaving the registry and accumulators unchanged. -/
theorem harmonic_l_conj_unbound_const :
    (∀ X A B : Pt, harmonic_l_conj X A B = .error .unboundConst) ∧
    (∀ (env : String → ℝ) (st : St) (y : String) (ps : List String)
       (X A B : Pt),
       lookup_pts st ps = .ok [X, A, B] →
       process_instruction env (.compute y (.harmonicLConj ps)) st =
         .error (.unboundConst, st)) := by
  refine ⟨fun _ _ _ => rfl, ?_⟩
  intro env st y ps X A B h
  unfold process_instruction compute compute_harmonic_l_conj
  dsimp only
  rw [h]
  rfl

/-- Witness for C10 at a concrete three-point registry. -/
theorem harmonic_l_conj_unbound_const_witness :
    lookup_pts
        (register_pt "b" ⟨2, 0⟩
          (register_pt "a" ⟨1, 0⟩ (register_pt "x" ⟨0, 0⟩ St.empty)))
        ["x", "a", "b"] = .ok [⟨0, 0⟩, ⟨1, 0⟩, ⟨2, 0⟩] ∧
    process_instruction (fun _ => 0)
        (.compute "y" (.harmonicLConj ["x", "a", "b"]))
        (register_pt "b" ⟨2, 0⟩
          (register_pt "a" ⟨1, 0⟩ (register_pt "x" ⟨0, 0⟩ St.empty))) =
      .error (.unboundConst,
        register_pt "b" ⟨2, 0⟩
          (register_pt "a" ⟨1, 0⟩ (register_pt "x" ⟨0, 0⟩ St.empty))) :=
  ⟨rfl,
   harmonic_l_conj_unbound_const.2 (fun _ => 0) _ "y" ["x", "a", "b"]
     ⟨0, 0⟩ ⟨1, 0⟩ ⟨2, 0⟩ rfl⟩

/-- Witness for C6: a one-instruction program (`equiTri` sampling) run
from the empty state; the step is evaluated and determinism applied to
two copies of its derivation. -/
theorem preprocess_deterministic_witness :
    Run (fun _ => 0) St.empty [.sample ["a", "b", "c"] "equiTri" []]
      ⟨[("a", ⟨0, 2 * Real.sqrt 3⟩), ("b", ⟨-2, 0⟩), ("c", ⟨2, 0⟩)],
       [], [], [],
       [(⟨0, 2 * Real.sqrt 3⟩, ⟨-2, 0⟩), (⟨-2, 0⟩, ⟨2, 0⟩),
        (⟨2, 0⟩, ⟨0, 2 * Real.sqrt 3⟩)], []⟩ ∧
    (⟨[("a", ⟨0, 2 * Real.sqrt 3⟩), ("b", ⟨-2, 0⟩), ("c", ⟨2, 0⟩)],
      [], [], [],
      [(⟨0, 2 * Real.sqrt 3⟩, ⟨-2, 0⟩), (⟨-2, 0⟩, ⟨2, 0⟩),
       (⟨2, 0⟩, ⟨0, 2 * Real.sqrt 3⟩)], []⟩ : St) =
    ⟨[("a", ⟨0, 2 * Real.sqrt 3⟩), ("b", ⟨-2, 0⟩), ("c", ⟨2, 0⟩)],
     [], [], [],
     [(⟨0, 2 * Real.sqrt 3⟩, ⟨-2, 0⟩), (⟨-2, 0⟩, ⟨2, 0⟩),
      (⟨2, 0⟩, ⟨0, 2 * Real.sqrt 3⟩)], []⟩ := by
  have hstep : process_instruction (fun _ => 0)
      (.sample ["a", "b", "c"] "equiTri" []) St.empty =
      .ok ⟨[("a", ⟨0, 2 * Real.sqrt 3⟩), ("b", ⟨-2, 0⟩), ("c", ⟨2, 0⟩)],
           [], [], [],
           [(⟨0, 2 * Real.sqrt 3⟩, ⟨-2, 0⟩), (⟨-2, 0⟩, ⟨2, 0⟩),
            (⟨2, 0⟩, ⟨0, 2 * Real.sqrt 3⟩)], []⟩ := rfl
  have hrun := Run.cons hstep (Run.nil _)
  exact ⟨hrun, preprocess_deterministic (fun _ => 0) St.empty _ _ _ hrun hrun⟩

theorem pairs_length {α : Type} (l : List α) :
    (pairs l).length = l.length.choose 2 := by
  induction l with
  | nil => rfl
  | cons x xs ih =>
      simp only [pairs, List.length_append, List.length_map, ih,
        List.length_cons, Nat.choose_succ_succ, Nat.choose_one_right]

theorem triples_length {α : Type} (l : List α) :
    (triples l).length = l.length.choose 3 := by
  induction l with
  | nil => rfl
  | cons x xs ih =>
      simp only [triples, List.length_append, List.length_map, ih,
        pairs_length, List.length_cons, Nat.choose_succ_succ]

/-- Collinearity transfer: if `A, B, C` are collinear with `A, B, C`
pairwise distinct and `D` is off the line `AB`, then `D` is off the
lines `AC` and `BC` as well. -/
theorem coll_phi_transfer (A B C D : Pt) (h0 : coll_phi A B C = 0)
    (hAB : A ≠ B) (hCA : C ≠ A) (hCB : C ≠ B)
    (hD : coll_phi A B D ≠ 0) :
    coll_phi A C D ≠ 0 ∧ coll_phi B C D ≠ 0 := by
  have hdet : (B.x - A.x) * (C.y - A.y) - (B.y - A.y) * (C.x - A.x) = 0 := by
    unfold coll_phi at h0
    linear_combination h0
  obtain ⟨t, hx, hy, ht0, ht1⟩ :
      ∃ t : ℝ, C.x - A.x = t * (B.x - A.x) ∧ C.y - A.y = t * (B.y - A.y) ∧
        t ≠ 0 ∧ t ≠ 1 := by
    by_cases hbx : B.x - A.x = 0
    · have hby : B.y - A.y ≠ 0 := by
        intro hc
        exact hAB (Pt.ext (by linarith) (by linarith))
      have hcx : C.x - A.x = 0 := by
        rw [hbx] at hdet
        have h2 : (B.y - A.y) * (C.x - A.x) = 0 := by linarith
        rcases mul_eq_zero.mp h2 with h | h
        · exact absurd h hby
        · exact h
      refine ⟨(C.y - A.y) / (B.y - A.y), ?_, ?_, ?_, ?_⟩
      · rw [hbx, mul_zero]; exact hcx
      · rw [div_mul_cancel₀ _ hby]
      · intro hc
        have hcy : C.y - A.y = 0 := by
          rcases div_eq_zero_iff.mp hc with h | h
          · exact h
          · exact absurd h hby
        exact hCA (Pt.ext (by linarith) (by linarith))
      · intro hc
        have hcy : C.y - A.y = B.y - A.y := by
          field_simp [hby] at hc
          linarith
        exact hCB (Pt.ext (by linarith) (by linarith))
    · refine ⟨(C.x - A.x) / (B.x - A.x), ?_, ?_, ?_, ?_⟩
      · rw [div_mul_cancel₀ _ hbx]
      · field_simp
        linear_combination hdet
      · intro hc
        have hcx : C.x - A.x = 0 := by
          rcases div_eq_zero_iff.mp hc with h | h
          · exact h
          · exact absurd h hbx
        have hcy : C.y - A.y = 0 := by
          rw [hcx, mul_zero] at hdet
          have h2 : (B.x - A.x) * (C.y - A.y) = 0 := by linarith
          rcases mul_eq_zero.mp h2 with h | h
          · exact absurd h hbx
          · exact h
        exact hCA (Pt.ext (by linarith) (by linarith))
      · intro hc
        have hcx : C.x - A.x = B.x - A.x := by
          field_simp [hbx] at hc
          linarith
        have hcy : C.y - A.y = B.y - A.y := by
          have h2 : (B.x - A.x) * ((C.y - A.y) - (B.y - A.y)) = 0 := by
            linear_combination hdet + (B.y - A.y) * hcx
          rcases mul_eq_zero.mp h2 with h | h
          · exact absurd h hbx
          · linarith
        exact hCB (Pt.ext (by linarith) (by linarith))
  have key1 : coll_phi A C D = t * coll_phi A B D := by
    unfold coll_phi
    linear_combination (D.y - A.y) * hx - (D.x - A.x) * hy
  have key2 : coll_phi B C D = (t - 1) * coll_phi A B D := by
    unfold coll_phi
    linear_combination (D.y - B.y) * hx - (D.x - B.x) * hy
  constructor
  · rw [key1]
    exact mul_ne_zero ht0 hD
  · rw [key2]
    exact mul_ne_zero (sub_ne_zero.mpr ht1) hD

/-- C5: `assertion_vals` on the `coll` predicate returns one `coll_phi`
residual per 3-combination of the argument points — `C(k, 3)` residuals
for `k` registered names; the three collinear points `(0,0), (1,1),
(2,2)` give the single residual `0`; and with three distinct collinear
points plus one off-line point `D`, every triple containing `D` has a
nonzero residual. -/
theorem assertion_vals_coll_spec :
    (∀ (st : St) (ps : List String) (pts : List Pt),
       lookup_pts st ps = .ok pts →
       assertion_vals st "coll" ps =
         .ok ((triples pts).map (fun t => coll_phi t.1 t.2.1 t.2.2),
              { st with segments := st.segments ++ consec_segments pts }) ∧
       ((triples pts).map (fun t => coll_phi t.1 t.2.1 t.2.2)).length =
         pts.length.choose 3) ∧
    assertion_vals
        (register_pt "c" ⟨2, 2⟩ (register_pt "b" ⟨1, 1⟩
          (register_pt "a" ⟨0, 0⟩ St.empty)))
        "coll" ["a", "b", "c"] =
      .ok ([0],
        ⟨[("a", ⟨0, 0⟩), ("b", ⟨1, 1⟩), ("c", ⟨2, 2⟩)], [], [], [],
         [(⟨0, 0⟩, ⟨1, 1⟩), (⟨1, 1⟩, ⟨2, 2⟩)], []⟩) ∧
    (∀ A B C D : Pt, coll_phi A B C = 0 → A ≠ B → C ≠ A → C ≠ B →
       coll_phi A B D ≠ 0 →
       (triples [A, B, C, D]).map (fun t => coll_phi t.1 t.2.1 t.2.2) =
         [coll_phi A B C, coll_phi A B D, coll_phi A C D, coll_phi B C D] ∧
       coll_phi A B C = 0 ∧ coll_phi A B D ≠ 0 ∧
       coll_phi A C D ≠ 0 ∧ coll_phi B C D ≠ 0) := by
  refine ⟨?_, ?_, ?_⟩
  · intro st ps pts h
    constructor
    · unfold assertion_vals
      rw [h]
      rfl
    · rw [List.length_map, triples_length]
  · have hlk : lookup_pts
        (register_pt "c" ⟨2, 2⟩ (register_pt "b" ⟨1, 1⟩
          (register_pt "a" ⟨0, 0⟩ St.empty)))
        ["a", "b", "c"] = .ok [⟨0, 0⟩, ⟨1, 1⟩, ⟨2, 2⟩] := rfl
    have h1 : assertion_vals
        (register_pt "c" ⟨2, 2⟩ (register_pt "b" ⟨1, 1⟩
          (register_pt "a" ⟨0, 0⟩ St.empty)))
        "coll" ["a", "b", "c"] =
        .ok (((triples [(⟨0, 0⟩ : Pt), ⟨1, 1⟩, ⟨2, 2⟩]).map
            (fun t => coll_phi t.1 t.2.1 t.2.2)),
          ⟨[("a", ⟨0, 0⟩), ("b", ⟨1, 1⟩), ("c", ⟨2, 2⟩)], [], [], [],
           consec_segments [(⟨0, 0⟩ : Pt), ⟨1, 1⟩, ⟨2, 2⟩], []⟩) := by
      unfold assertion_vals
      rw [hlk]
      rfl
    rw [h1]
    norm_num [triples, pairs, coll_phi, consec_segments]
  · intro A B C D h0 hAB hCA hCB hD
    obtain ⟨h1, h2⟩ := coll_phi_transfer A B C D h0 hAB hCA hCB hD
    exact ⟨rfl, h0, hD, h1, h2⟩

/-- Witness for C5: the collinear points `(0,0), (1,1), (2,2)` with the
off-line point `(3,0)`. -/
theorem assertion_vals_coll_spec_witness :
    (lookup_pts
        (register_pt "c" ⟨2, 2⟩ (register_pt "b" ⟨1, 1⟩
          (register_pt "a" ⟨0, 0⟩ St.empty)))
        ["a", "b", "c"] = .ok [⟨0, 0⟩, ⟨1, 1⟩, ⟨2, 2⟩] ∧
     coll_phi ⟨0, 0⟩ ⟨1, 1⟩ ⟨2, 2⟩ = 0 ∧ (⟨0, 0⟩ : Pt) ≠ ⟨1, 1⟩ ∧
     (⟨2, 2⟩ : Pt) ≠ ⟨0, 0⟩ ∧ (⟨2, 2⟩ : Pt) ≠ ⟨1, 1⟩ ∧
     coll_phi ⟨0, 0⟩ ⟨1, 1⟩ ⟨3, 0⟩ ≠ 0) ∧
    ((triples [(⟨0, 0⟩ : Pt), ⟨1, 1⟩, ⟨2, 2⟩]).map
        (fun t => coll_phi t.1 t.2.1 t.2.2)).length = 1 ∧
    coll_phi ⟨0, 0⟩ ⟨2, 2⟩ ⟨3, 0⟩ ≠ 0 ∧ coll_phi ⟨1, 1⟩ ⟨2, 2⟩ ⟨3, 0⟩ ≠ 0 := by
  have hnex : ∀ a b c d : ℝ, a ≠ c → (⟨a, b⟩ : Pt) ≠ ⟨c, d⟩ := by
    intro a b c d hne hc
    exact hne (congrArg Pt.x hc)
  refine ⟨⟨rfl, by norm_num [coll_phi], hnex 0 0 1 1 (by norm_num),
           hnex 2 2 0 0 (by norm_num), hnex 2 2 1 1 (by norm_num),
           by norm_num [coll_phi]⟩, ?_, ?_, ?_⟩
  · have h := (assertion_vals_coll_spec.1
      (register_pt "c" ⟨2, 2⟩ (register_pt "b" ⟨1, 1⟩
        (register_pt "a" ⟨0, 0⟩ St.empty)))
      ["a", "b", "c"] [⟨0, 0⟩, ⟨1, 1⟩, ⟨2, 2⟩] rfl).2
    simpa using h
  · exact (assertion_vals_coll_spec.2.2 ⟨0, 0⟩ ⟨1, 1⟩ ⟨2, 2⟩ ⟨3, 0⟩
      (by norm_num [coll_phi]) (hnex 0 0 1 1 (by norm_num))
      (hnex 2 2 0 0 (by norm_num)) (hnex 2 2 1 1 (by norm_num))
      (by norm_num [coll_phi])).2.2.2.1
  · exact (assertion_vals_coll_spec.2.2 ⟨0, 0⟩ ⟨1, 1⟩ ⟨2, 2⟩ ⟨3, 0⟩
      (by norm_num [coll_phi]) (hnex 0 0 1 1 (by norm_num))
      (hnex 2 2 0 0 (by norm_num)) (hnex 2 2 1 1 (by norm_num))
      (by norm_num [coll_phi])).2.2.2.2

/-- C7: an `equiTri` Sample instruction registers, with no free variable,
the apex `(0, 2*sqrt(3))` for its first point name and the base vertices
`(-2, 0)` and `(2, 0)` for the other two; the three side lengths all
equal 4 and the angle at the base vertex is `pi / 3`. -/
theorem sample_equiTri_spec (env : String → ℝ) (st : St)
    (nA nB nC : String) (sargs : List String) :
    process_instruction env (.sample [nA, nB, nC] "equiTri" sargs) st =
      .ok { st with
            name2pt := st.name2pt ++
              [(nA, ⟨0, 2 * Real.sqrt 3⟩), (nB, ⟨-2, 0⟩), (nC, ⟨2, 0⟩)],
            segments := st.segments ++
              [(⟨0, 2 * Real.sqrt 3⟩, ⟨-2, 0⟩), (⟨-2, 0⟩, ⟨2, 0⟩),
               (⟨2, 0⟩, ⟨0, 2 * Real.sqrt 3⟩)] } ∧
    dist ⟨0, 2 * Real.sqrt 3⟩ ⟨-2, 0⟩ = 4 ∧
    dist ⟨-2, 0⟩ ⟨2, 0⟩ = 4 ∧
    dist ⟨2, 0⟩ ⟨0, 2 * Real.sqrt 3⟩ = 4 ∧
    angle ⟨0, 2 * Real.sqrt 3⟩ ⟨-2, 0⟩ ⟨2, 0⟩ = Real.pi / 3 := by
  have h3 : Real.sqrt 3 ^ 2 = 3 := Real.sq_sqrt (by norm_num)
  have d1 : dist (⟨0, 2 * Real.sqrt 3⟩ : Pt) ⟨-2, 0⟩ = 4 :=
    dist_eval _ _ 16 4
      (by unfold sqdist; dsimp only; linear_combination 4 * h3)
      (by norm_num) (by norm_num)
  have d2 : dist (⟨-2, 0⟩ : Pt) ⟨2, 0⟩ = 4 :=
    dist_eval _ _ 16 4 (by norm_num [sqdist]) (by norm_num) (by norm_num)
  have d3 : dist (⟨2, 0⟩ : Pt) ⟨0, 2 * Real.sqrt 3⟩ = 4 :=
    dist_eval _ _ 16 4
      (by unfold sqdist; dsimp only; linear_combination 4 * h3)
      (by norm_num) (by norm_num)
  have d4 : dist (⟨2, 0⟩ : Pt) ⟨-2, 0⟩ = 4 :=
    dist_eval _ _ 16 4 (by norm_num [sqdist]) (by norm_num) (by norm_num)
  refine ⟨?_, d1, d2, d3, ?_⟩
  · unfold process_instruction sample sample_triangle register_pt
    simp [const, sqrt, List.append_assoc]
  · unfold angle side_lengths acos
    dsimp only
    rw [d2, d3, d1]
    norm_num
    rw [show (1 / 2 : ℝ) = Real.cos (Real.pi / 3) from Real.cos_pi_div_three.symm]
    exact Real.arccos_cos (by positivity) (by linarith [Real.pi_pos])

end

end GMB
